import Mathlib

/-!
Verification development for the blau tile-drafting game engine.

This file gives a shallow embedding of the engine's core data model and
operations (colors, moves, player boards, the drafting state machine) as
executable Lean definitions, translated directly from the Rust source
(`colors.rs`, `player_move.rs`, `player_state.rs`, `game_state.rs`), and
proves the specification's claims about them.

Modelling conventions:
- Rust `Vec<T>` and fixed arrays become `List`; in-place mutation becomes
  explicit state passing.  A fallible Rust function that mutates `&mut self`
  becomes a function returning the post-call state paired with its outcome,
  so that a mid-function early return leaves the partially mutated state
  visible, exactly as in Rust.
- Rust out-of-bounds indexing and failed `assert_eq!` abort the process;
  these are modelled by a distinguished `fatal` outcome, distinct from an
  `Err` return.
- `HashMap<Color, usize>` becomes a total function `Color → Option Nat`.
- The `rand` crate's RNG is modelled as a stream `Nat → Nat` of draws; its
  `shuffle` is the Fisher-Yates swap loop driven by that stream.  The exact
  distribution of draws is irrelevant to every claim below.
-/

set_option maxRecDepth 100000

/-- Outcome of a fallible Rust call: a normal return, an `Err` return, or a
process abort (out-of-bounds panic / failed assertion). -/
inductive RustResult (α : Type) where
  | ok (a : α)
  | err (e : String)
  | fatal
deriving DecidableEq, Repr

/-- The tile palette from `colors.rs`: five movable colors plus the start
token and the blank sentinel. -/
inductive Color where
  | Blue
  | Orange
  | Green
  | Red
  | Purple
  | Start
  | Blank
deriving DecidableEq, Repr, Fintype

/-- Discriminant of a color, matching the Rust `Color as usize` values. -/
def colorIdx : Color → Nat
  | .Blue => 0
  | .Orange => 1
  | .Green => 2
  | .Red => 3
  | .Purple => 4
  | .Start => 5
  | .Blank => 6

/-- Only the five palette colors are movable (`Color::is_movable`). -/
def Color.is_movable (c : Color) : Bool :=
  !(c == Color.Start) && !(c == Color.Blank)

/-- The `ALL_COLORS` constant from `game_state.rs`. -/
def ALL_COLORS : List Color := [.Blue, .Orange, .Green, .Red, .Purple]

/-- Every color constructor, used to model iteration over a `HashMap` keyed
by `Color` and to decide emptiness of such a map. -/
def COLOR_LIST : List Color := [.Blue, .Orange, .Green, .Red, .Purple, .Start, .Blank]

/-- A candidate action from `player_move.rs`: `factory_idx == 0` means the
shared center; `working_row == 5` means the trash. -/
structure Move where
  factory_idx : Nat
  color : Color
  working_row : Nat
deriving DecidableEq, Repr

/-- `Move::is_from_center`. -/
def Move.is_from_center (m : Move) : Bool := m.factory_idx == 0

/-- `Move::check_validity`: rejects non-movable colors and rows beyond 5. -/
def Move.check_validity (m : Move) : Option String :=
  if !m.color.is_movable then some "tiles of this color are not movable"
  else if m.working_row > 5 then some "cannot move to this row"
  else none

/-- Per-player board state from `player_state.rs`. -/
structure PlayerState where
  display_name : String
  played_tiles : List (List Bool)
  working_count : List Nat
  working_color : List Color
  trashed_tiles : List Color
  scores : List Int
deriving DecidableEq, Repr

/-- The positional trash penalty table `PENALTIES`. -/
def PENALTIES : List Int := [-1, -1, -2, -2, -2, -3, -3]

/-- Row bonus constant. -/
def ROW_BONUS : Int := 2

/-- Column bonus constant. -/
def COL_BONUS : Int := 7

/-- Color-kind bonus constant. -/
def KIND_BONUS : Int := 10

/-- Grid column assigned to `color` in `row` (`played_column`). -/
def played_column (row : Nat) (color : Color) : Nat :=
  (colorIdx color + row) % 5

/-- Inverse of the diagonal color/column mapping (`played_color`). -/
def played_color (row col : Nat) : Nat :=
  (col + 5 - row) % 5

/-- Adjacency score of the newly placed cell `(row, col)` (`score_tile`).
Inner-row access `x[col]` is modelled by `getD`; callers only use 5×5 grids. -/
def score_tile (grid : List (List Bool)) (row col : Nat) : Int :=
  let line := grid.getD row []
  let horiz := 1 + ((line.drop (col + 1)).takeWhile (fun x => x)).length
      + (((line.take col).reverse).takeWhile (fun x => x)).length
  let vert := 1 + ((grid.drop (row + 1)).takeWhile (fun r => r.getD col false)).length
      + (((grid.take row).reverse).takeWhile (fun r => r.getD col false)).length
  let res : Int := (horiz + vert : Nat)
  if horiz == 1 || vert == 1 then res - 1 else res

/-- `PlayerState::new`: a fresh, empty board. -/
def PlayerState.new (name : String) : PlayerState where
  display_name := name
  played_tiles := List.replicate 5 (List.replicate 5 false)
  working_count := List.replicate 5 0
  working_color := List.replicate 5 Color.Blank
  trashed_tiles := []
  scores := []

/-- `PlayerState::score`: the running total of the score ledger. -/
def PlayerState.score (p : PlayerState) : Int := p.scores.sum

/-- `PlayerState::send_to_trash`: push `num_tiles` copies of `c`. -/
def send_to_trash (p : PlayerState) (c : Color) (num_tiles : Nat) : PlayerState :=
  { p with trashed_tiles := p.trashed_tiles ++ List.replicate num_tiles c }

/-- `PlayerState::is_played`: is `c`'s grid cell for `row` occupied. -/
def is_played (p : PlayerState) (row : Nat) (c : Color) : Bool :=
  (p.played_tiles.getD row []).getD (played_column row c) false

/-- `PlayerState::add_tiles`, returning the post-call board and the error,
if any.  All validation precedes every mutation, as in the source. -/
def add_tiles (p : PlayerState) (row : Nat) (color : Color) (num_tiles : Nat) :
    PlayerState × Option String :=
  if row == 5 then (send_to_trash p color num_tiles, none)
  else if row > 5 then (p, some "invalid row")
  else if color == Color.Start then (p, some "the start tile can only be trashed")
  else if is_played p row color then (p, some "color has already been played in this row")
  else
    let row_number := 1 + row
    let w_count := p.working_count.getD row 0
    if row_number ≤ w_count then (p, some "no room left in this row")
    else
      let w_color := p.working_color.getD row Color.Blank
      if w_color ≠ color ∧ w_color ≠ Color.Blank then
        (p, some "working row is locked to another color")
      else
        let p1 := { p with working_color := p.working_color.set row color }
        if row_number < num_tiles + w_count then
          let num_trashed := num_tiles + w_count - row_number
          let p2 := send_to_trash p1 color num_trashed
          ({ p2 with working_count :=
              p2.working_count.set row (w_count + (num_tiles - num_trashed)) }, none)
        else
          ({ p1 with working_count :=
              p1.working_count.set row (w_count + num_tiles) }, none)

/-- The flush loop of `PlayerState::score_round` over the given row indices:
threads the board, the accumulated round score and the returned tiles, and
stops with the corruption-guard error if a target grid cell is occupied. -/
def scoreRowsGo : List Nat → PlayerState → Int → List Color →
    PlayerState × Int × List Color × Option String
  | [], p, rs, ret => (p, rs, ret, none)
  | row :: rest, p, rs, ret =>
    let count := p.working_count.getD row 0
    if count ≤ row then scoreRowsGo rest p rs ret
    else
      let color := p.working_color.getD row Color.Blank
      let ret1 := ret ++ List.replicate (count - 1) color
      let column := played_column row color
      if (p.played_tiles.getD row []).getD column false then
        (p, rs, ret1, some "color has already been played in this row")
      else
        let grid1 := p.played_tiles.set row ((p.played_tiles.getD row []).set column true)
        let p1 := { p with played_tiles := grid1,
                           working_color := p.working_color.set row Color.Blank,
                           working_count := p.working_count.set row 0 }
        scoreRowsGo rest p1 (rs + score_tile grid1 row column) ret1

/-- The positional-penalty loop of `score_round`: position `idx` within this
round's trash incurs `PENALTIES[idx]`, positions beyond the table none. -/
def trashPenaltiesGo : Nat → List Color → Int
  | _, [] => 0
  | idx, _ :: rest =>
    (if idx < PENALTIES.length then PENALTIES.getD idx 0 else 0) + trashPenaltiesGo (idx + 1) rest

/-- `PlayerState::score_round`: flush full working rows onto the grid,
apply trash penalties, clamp the round delta at the score floor, append it
to the ledger, and return the recycled tiles. -/
def score_round (p : PlayerState) : PlayerState × Except String (List Color) :=
  match scoreRowsGo (List.range 5) p 0 [] with
  | (p1, _, _, some e) => (p1, .error e)
  | (p1, rs, ret, none) =>
    let rs1 := rs + trashPenaltiesGo 0 p1.trashed_tiles
    let ret1 := ret ++ p1.trashed_tiles.filter (fun c => !(c == Color.Start))
    let p2 := { p1 with trashed_tiles := [] }
    let prev := p2.score
    let rs2 := if prev + rs1 < 0 then -prev else rs1
    ({ p2 with scores := p2.scores ++ [rs2] }, .ok ret1)

/-- `PlayerState::num_full_rows`. -/
def num_full_rows (p : PlayerState) : Int :=
  (p.played_tiles.map (fun row => if row.all (fun x => x) then (1 : Int) else 0)).sum

/-- `PlayerState::num_full_columns`. -/
def num_full_columns (p : PlayerState) : Int :=
  (((List.range 5).filter
    (fun col => (List.range 5).all (fun i => (p.played_tiles.getD i []).getD col false))).length : Nat)

/-- Number of occupied grid cells whose inverse color mapping is `cidx`
(the `bincount` array of `num_full_colors`). -/
def colorBincount (p : PlayerState) (cidx : Nat) : Nat :=
  ((List.range 5).map (fun i =>
    ((List.range 5).filter (fun j =>
      (p.played_tiles.getD i []).getD j false && (played_color i j == cidx))).length)).sum

/-- `PlayerState::num_full_colors`: colors with all 5 occurrences placed. -/
def num_full_colors (p : PlayerState) : Int :=
  (((List.range 5).filter (fun cidx => colorBincount p cidx == 5)).length : Nat)

/-- `PlayerState::score_bonuses`: appends the three bonus ledger entries. -/
def score_bonuses (p : PlayerState) : PlayerState :=
  { p with scores := p.scores ++
      [ROW_BONUS * num_full_rows p, COL_BONUS * num_full_columns p, KIND_BONUS * num_full_colors p] }

/-- `PlayerState::valid_moves`: the trash row 5 plus every unlocked or
same-color row with the grid cell free and room left. -/
def PlayerState.valid_moves (p : PlayerState) (c : Color) : List Nat :=
  5 :: (List.range 5).filter (fun row =>
    let w_color := p.working_color.getD row Color.Blank
    (w_color == c || w_color == Color.Blank) && !(is_played p row c)
      && p.working_count.getD row 0 ≤ row)

/-- The drafting state machine from `game_state.rs`.  The shared center
(`HashMap<Color, usize>`) is modelled as a total function into `Option Nat`. -/
structure GameState where
  tile_bag : List Color
  box_lid : List Color
  factories : List (List Color)
  center : Color → Option Nat
  players : List PlayerState
  start_player_idx : Nat
  curr_player_idx : Nat
  round_number : Nat

/-- Insert a key/count pair into the center (`HashMap::insert`). -/
def centerInsert (m : Color → Option Nat) (c : Color) (n : Nat) : Color → Option Nat :=
  fun x => if x = c then some n else m x

/-- Remove a key from the center (`HashMap::remove`). -/
def centerRemove (m : Color → Option Nat) (c : Color) : Color → Option Nat :=
  fun x => if x = c then none else m x

/-- Increment a key's count in the center (`entry(t).or_insert(0) += 1`). -/
def centerAdd (m : Color → Option Nat) (c : Color) : Color → Option Nat :=
  centerInsert m c ((m c).getD 0 + 1)

/-- Spill every tile of `ts` except the drafted color `c` into the center
(the non-matching-tile loop of `take_turn`). -/
def spill (m : Color → Option Nat) (ts : List Color) (c : Color) : Color → Option Nat :=
  ts.foldl (fun acc t => if t = c then acc else centerAdd acc t) m

/-- Swap the elements at indices `i` and `j` (`slice::swap`). -/
def listSwap (l : List Color) (i j : Nat) : List Color :=
  let vi := l.getD i Color.Blank
  let vj := l.getD j Color.Blank
  (l.set i vj).set j vi

/-- Fisher-Yates loop: the index being swapped counts down from
`l.length - 1` to 1, drawing `rng k % (i + 1)` at step `i`. -/
def shuffleGo (rng : Nat → Nat) : List Color → Nat → Nat → List Color
  | l, _, 0 => l
  | l, k, Nat.succ i => shuffleGo rng (listSwap l (i + 1) (rng k % (i + 2))) (k + 1) i

/-- `SliceRandom::shuffle`, driven by the modelled RNG stream. -/
def shuffle (l : List Color) (rng : Nat → Nat) : List Color :=
  shuffleGo rng l 0 (l.length - 1)

/-- Twenty copies of the five-color palette: the initial 100-tile bag. -/
def repBag : Nat → List Color
  | 0 => []
  | n + 1 => ALL_COLORS ++ repBag n

/-- The all-empty center map. -/
def emptyCenter : Color → Option Nat := fun _ => none

/-- `GameState::new`: shuffled 100-tile bag, `2n+1` empty factories, a start
token in the center, and a randomly drawn starting player. -/
def GameState.new (player_names : List String) (rng : Nat → Nat) : GameState where
  tile_bag := shuffle (repBag 20) rng
  box_lid := []
  factories := List.replicate (2 * player_names.length + 1) []
  center := centerInsert emptyCenter Color.Start 1
  players := player_names.map PlayerState.new
  start_player_idx := rng (repBag 20).length % player_names.length
  curr_player_idx := 0
  round_number := 0

/-- `GameState::is_start_token_available`: the first-player marker still
holds its sentinel value (the player count). -/
def is_start_token_available (s : GameState) : Bool :=
  s.start_player_idx == s.players.length

/-- Draw up to `k` tiles from the back of the bag into factory `f`
(the inner `for _i in 0..4` loop of `start_round`); the flag reports
whether the bag lasted. -/
def fillOne : List Color → List Color → Nat → List Color × List Color × Bool
  | bag, f, 0 => (bag, f, true)
  | bag, f, Nat.succ k =>
    match bag.getLast? with
    | some t => fillOne bag.dropLast (f ++ [t]) k
    | none => (bag, f, false)

/-- Fill each factory in turn with up to 4 tiles; on exhaustion the whole
fill stops early, leaving the remaining factories untouched. -/
def fillFactories : List Color → List (List Color) → List (List Color) × List Color × Bool
  | bag, [] => ([], bag, true)
  | bag, f :: rest =>
    let r1 := fillOne bag f 4
    if r1.2.2 then
      let r2 := fillFactories r1.1 rest
      (r1.2.1 :: r2.1, r2.2.1, r2.2.2)
    else (r1.2.1 :: rest, r1.1, false)

/-- `GameState::start_round`.  Note the early `return` of the source when
the bag is exhausted mid-fill: the round counter is then not incremented. -/
def start_round (s : GameState) : GameState :=
  let s1 := { s with curr_player_idx := s.start_player_idx,
                     start_player_idx := s.players.length,
                     center := centerInsert s.center Color.Start 1 }
  let fr := fillFactories s1.tile_bag s1.factories
  let s2 := { s1 with factories := fr.1, tile_bag := fr.2.1 }
  if fr.2.2 then { s2 with round_number := s2.round_number + 1 } else s2

/-- `GameState::is_round_over`: the center holds no entries at all (not even
the start token) and every factory is empty. -/
def is_round_over (s : GameState) : Bool :=
  COLOR_LIST.all (fun c => (s.center c).isNone) && s.factories.all (fun f => f.isEmpty)

/-- `GameState::num_tiles_taken`: a center lookup, or a scan of the named
factory; an out-of-range factory index is an out-of-bounds abort in the
source, modelled as `fatal`. -/
def num_tiles_taken (s : GameState) (m : Move) : RustResult Nat :=
  if m.is_from_center then
    match s.center m.color with
    | some n => .ok n
    | none => .err "color is not in the center"
  else
    if m.factory_idx - 1 < s.factories.length then
      .ok (((s.factories.getD (m.factory_idx - 1) []).filter (fun t => t == m.color)).length)
    else .fatal

/-- Commit the source mutation of `take_turn`: a center draft removes that
color's entry; a factory draft spills the non-matching tiles into the
center and clears the factory. -/
def commit_source (s : GameState) (m : Move) : GameState :=
  if m.is_from_center then { s with center := centerRemove s.center m.color }
  else
    let f := s.factories.getD (m.factory_idx - 1) []
    { s with center := spill s.center f m.color,
             factories := s.factories.set (m.factory_idx - 1) [] }

/-- The start-token block of `take_turn`: record the first-player marker,
trash one start token on the current player's board, and remove the token
entry from the center. -/
def claim_token (s : GameState) : GameState :=
  { s with start_player_idx := s.curr_player_idx,
           players := s.players.set s.curr_player_idx
             (send_to_trash (s.players.getD s.curr_player_idx (PlayerState.new "")) Color.Start 1),
           center := centerRemove s.center Color.Start }

/-- `GameState::take_turn`, returning the post-call state and the outcome.
The `assert_eq!` on removing the start token and the `players[idx]`
indexing are modelled as `fatal` aborts. -/
def take_turn (s : GameState) (m : Move) : GameState × RustResult Bool :=
  match m.check_validity with
  | some e => (s, .err e)
  | none =>
    let taking_start_token := m.is_from_center && is_start_token_available s
    match num_tiles_taken s m with
    | .err e => (s, .err e)
    | .fatal => (s, .fatal)
    | .ok num_tiles =>
      if num_tiles == 0 then (s, .err "color is not in the named factory")
      else if s.curr_player_idx < s.players.length then
        let pr := add_tiles (s.players.getD s.curr_player_idx (PlayerState.new ""))
          m.working_row m.color num_tiles
        let s1 := { s with players := s.players.set s.curr_player_idx pr.1 }
        match pr.2 with
        | some e => (s1, .err e)
        | none =>
          let s2 := commit_source s1 m
          if taking_start_token ∧ s2.center Color.Start ≠ some 1 then (s2, .fatal)
          else
            let s3 := if taking_start_token then claim_token s2 else s2
            if is_round_over s3 then (s3, .ok true)
            else ({ s3 with curr_player_idx := (s3.curr_player_idx + 1) % s3.players.length },
                  .ok false)
      else (s, .fatal)

/-- `GameState::is_finished`: some player completed a grid row. -/
def is_finished (s : GameState) : Bool :=
  s.players.any (fun p => num_full_rows p > 0)

/-- The player loop of `finish_round`: score every board in order,
collecting the returned tiles into the box lid, propagating the first
error (boards already processed stay mutated, as in the source). -/
def finishPlayersGo : List PlayerState → List Color → List PlayerState × List Color × Option String
  | [], lid => ([], lid, none)
  | p :: rest, lid =>
    match score_round p with
    | (p1, .error e) => (p1 :: rest, lid, some e)
    | (p1, .ok ret) =>
      let r := finishPlayersGo rest (lid ++ ret)
      (p1 :: r.1, r.2.1, r.2.2)

/-- `GameState::finish_round`.  The mid-game reshuffle draws from a fresh
ambient RNG (`rand::rng()` in the source, with a TODO noting it should
reuse the initialization RNG); that ambient stream is the explicit
`ambient` parameter here. -/
def finish_round (s : GameState) (ambient : Nat → Nat) : GameState × Except String Bool :=
  if !(is_round_over s) then (s, .error "round is not over")
  else
    let fp := finishPlayersGo s.players s.box_lid
    let s1 := { s with players := fp.1, box_lid := fp.2.1 }
    match fp.2.2 with
    | some e => (s1, .error e)
    | none =>
      if is_finished s1 then
        ({ s1 with players := s1.players.map score_bonuses }, .ok true)
      else if s1.tile_bag.length < 4 * s1.factories.length then
        ({ s1 with tile_bag := shuffle (s1.tile_bag ++ s1.box_lid) ambient,
                   box_lid := [] }, .ok false)
      else (s1, .ok false)

/-- Pair each element with its index starting at `i` (`iter().enumerate()`). -/
def withIdxGo (i : Nat) : List α → List (Nat × α)
  | [] => []
  | a :: rest => (i, a) :: withIdxGo (i + 1) rest

/-- Turn a list of destination rows into fully specified moves. -/
def rowsToMoves (fidx : Nat) (c : Color) (rows : List Nat) : List Move :=
  rows.map (fun r => { factory_idx := fidx, color := c, working_row := r })

/-- Moves drafting from one factory: every palette color present in it,
paired with every legal destination row for that color. -/
def factoryColorMoves (cm : List (List Nat)) (fidx : Nat) (factory : List Color) : List Move :=
  (List.range 5).foldr (fun cidx acc =>
    (if factory.any (fun t => t == ALL_COLORS.getD cidx Color.Blank)
     then rowsToMoves fidx (ALL_COLORS.getD cidx Color.Blank) (cm.getD cidx [])
     else []) ++ acc) []

/-- `GameState::valid_moves`.  `current_player()` on an out-of-range index
aborts, as does indexing `color_moves` with the blank sentinel during key
iteration; both are modelled as `fatal`.  `HashMap` key order is modelled
by the fixed `COLOR_LIST` order (the set of moves is order-independent). -/
def GameState.valid_moves (s : GameState) : RustResult (List Move) :=
  if s.curr_player_idx < s.players.length then
    if (s.center Color.Blank).isSome then .fatal
    else
      let player := s.players.getD s.curr_player_idx (PlayerState.new "")
      let cm := ALL_COLORS.map player.valid_moves
      let fm := (withIdxGo 0 s.factories).foldr
        (fun fa acc => factoryColorMoves cm (fa.1 + 1) fa.2 ++ acc) []
      let cmvs := COLOR_LIST.foldr (fun c acc =>
        (if c = Color.Start then []
         else if (s.center c).isSome then rowsToMoves 0 c (cm.getD (colorIdx c) [])
         else []) ++ acc) []
      .ok (fm ++ cmvs)
  else .fatal

/-! ### Generic list helper lemmas -/

theorem getD_set_self {α : Type} (l : List α) (i : Nat) (a d : α) (h : i < l.length) :
    (l.set i a).getD i d = a := by
  simp [List.getD_eq_getElem?_getD, List.getElem?_set_self h]

theorem getD_set_ne {α : Type} (l : List α) (i j : Nat) (a d : α) (h : i ≠ j) :
    (l.set i a).getD j d = l.getD j d := by
  simp [List.getD_eq_getElem?_getD, List.getElem?_set_ne h]

theorem set_getD_self {α : Type} (l : List α) (i : Nat) (d : α) (h : i < l.length) :
    l.set i (l.getD i d) = l := by
  induction l generalizing i with
  | nil => simp at h
  | cons a rest ih =>
    cases i with
    | zero => simp [List.getD]
    | succ j =>
      simp only [List.length_cons, Nat.succ_lt_succ_iff] at h
      show a :: rest.set j (rest.getD j d) = a :: rest
      rw [ih j h]

theorem sum_map_set {α : Type} (l : List α) (i : Nat) (a d : α) (f : α → Nat) (h : i < l.length) :
    ((l.set i a).map f).sum + f (l.getD i d) = (l.map f).sum + f a := by
  induction l generalizing i with
  | nil => simp at h
  | cons b rest ih =>
    cases i with
    | zero => simp [List.getD]; omega
    | succ j =>
      simp only [List.length_cons, Nat.succ_lt_succ_iff] at h
      have := ih j h
      simp only [List.set, List.map_cons, List.sum_cons, List.getD_cons_succ]
      omega

theorem all_set {α : Type} (l : List α) (i : Nat) (a : α) (p : α → Bool)
    (hl : l.all p = true) (ha : p a = true) : (l.set i a).all p = true := by
  rw [List.all_eq_true] at hl ⊢
  intro x hx
  rcases List.mem_or_eq_of_mem_set hx with h | h
  · exact hl x h
  · rw [h]; exact ha

theorem mem_foldr_append {α β : Type} (l : List α) (g : α → List β) (m : β) :
    m ∈ l.foldr (fun a acc => g a ++ acc) [] ↔ ∃ a ∈ l, m ∈ g a := by
  induction l with
  | nil => simp
  | cons b rest ih => simp [ih]

theorem mem_withIdxGo {α : Type} (l : List α) (i j : Nat) (a : α)
    (h : (j, a) ∈ withIdxGo i l) : i ≤ j ∧ j - i < l.length ∧ l.getD (j - i) a = a := by
  induction l generalizing i with
  | nil => simp [withIdxGo] at h
  | cons b rest ih =>
    simp only [withIdxGo, List.mem_cons, Prod.mk.injEq] at h
    rcases h with ⟨rfl, rfl⟩ | h
    · refine ⟨Nat.le_refl _, by simp, ?_⟩
      rw [Nat.sub_self]
      rfl
    · obtain ⟨h1, h2, h3⟩ := ih (i + 1) h
      refine ⟨by omega, by simp only [List.length_cons]; omega, ?_⟩
      have hji : j - i = (j - (i + 1)) + 1 := by omega
      rw [hji]
      exact h3

/-! ### Tile counting -/

/-- Number of movable-color tiles in a list. -/
def countMovable (l : List Color) : Nat :=
  (l.filter (fun c => c.is_movable)).length

/-- Number of occupied cells in a grid. -/
def gridCount (g : List (List Bool)) : Nat :=
  (g.map (fun r => (r.filter (fun x => x)).length)).sum

/-- Movable tiles held in the five staging rows. -/
def stagingCount (p : PlayerState) : Nat :=
  ((List.range 5).map (fun r =>
    if (p.working_color.getD r Color.Blank).is_movable then p.working_count.getD r 0 else 0)).sum

/-- Movable tiles held by one player: staging rows, grid, and trash. -/
def playerCount (p : PlayerState) : Nat :=
  stagingCount p + gridCount p.played_tiles + countMovable p.trashed_tiles

/-- Movable tiles recorded in the shared center pool (the start token is
not a movable tile and is not counted). -/
def centerCount (m : Color → Option Nat) : Nat :=
  (ALL_COLORS.map (fun c => (m c).getD 0)).sum

/-- Total movable tiles across the whole game state: draw pile, discard
pile, factories, center pool, and every player board. -/
def totalTiles (s : GameState) : Nat :=
  countMovable s.tile_bag + countMovable s.box_lid
    + (s.factories.map countMovable).sum + centerCount s.center
    + (s.players.map playerCount).sum

/-! ### Counting lemmas -/

theorem countMovable_append (l1 l2 : List Color) :
    countMovable (l1 ++ l2) = countMovable l1 + countMovable l2 := by
  simp [countMovable, List.filter_append]

theorem countMovable_replicate (n : Nat) (c : Color) :
    countMovable (List.replicate n c) = if c.is_movable then n else 0 := by
  simp only [countMovable, List.filter_replicate]
  split <;> simp_all

theorem countMovable_eq_length (l : List Color) (h : l.all Color.is_movable = true) :
    countMovable l = l.length := by
  unfold countMovable
  rw [List.filter_eq_self.mpr]
  intro a ha
  exact (List.all_eq_true.mp h) a ha

theorem countMovable_filter_ne_start (l : List Color) :
    countMovable (l.filter (fun c => !(c == Color.Start))) = countMovable l := by
  unfold countMovable
  rw [List.filter_filter]
  congr 1
  apply List.filter_congr
  intro c _
  cases c <;> rfl

/-! ### Shuffle lemmas -/

theorem listSwap_length (l : List Color) (i j : Nat) :
    (listSwap l i j).length = l.length := by
  simp [listSwap]

theorem getD_mem_of_lt {α : Type} (l : List α) (i : Nat) (d : α) (h : i < l.length) :
    l.getD i d ∈ l := by
  rw [List.getD_eq_getElem?_getD, List.getElem?_eq_getElem h]
  exact List.getElem_mem h

theorem listSwap_all (l : List Color) (i j : Nat) (p : Color → Bool)
    (hl : l.all p = true) (hi : i < l.length) (hj : j < l.length) :
    (listSwap l i j).all p = true := by
  unfold listSwap
  have hvi : p (l.getD i Color.Blank) = true :=
    (List.all_eq_true.mp hl) _ (getD_mem_of_lt l i Color.Blank hi)
  have hvj : p (l.getD j Color.Blank) = true :=
    (List.all_eq_true.mp hl) _ (getD_mem_of_lt l j Color.Blank hj)
  exact all_set _ _ _ _ (all_set _ _ _ _ hl hvj) hvi

theorem shuffleGo_length (rng : Nat → Nat) (n : Nat) :
    ∀ l k, (shuffleGo rng l k n).length = l.length := by
  induction n with
  | zero => intro l k; rfl
  | succ i ih =>
    intro l k
    show (shuffleGo rng (listSwap l (i + 1) (rng k % (i + 2))) (k + 1) i).length = l.length
    rw [ih, listSwap_length]

theorem shuffleGo_all (rng : Nat → Nat) (p : Color → Bool) (n : Nat) :
    ∀ l k, n < l.length → l.all p = true → (shuffleGo rng l k n).all p = true := by
  induction n with
  | zero => intro l k _ hl; exact hl
  | succ i ih =>
    intro l k hn hl
    show (shuffleGo rng (listSwap l (i + 1) (rng k % (i + 2))) (k + 1) i).all p = true
    have hj : rng k % (i + 2) < l.length :=
      Nat.lt_of_lt_of_le (Nat.mod_lt _ (by omega)) (by omega)
    apply ih
    · rw [listSwap_length]; omega
    · exact listSwap_all l _ _ p hl hn hj

theorem shuffle_length (l : List Color) (rng : Nat → Nat) :
    (shuffle l rng).length = l.length :=
  shuffleGo_length rng _ l 0

theorem shuffle_all (l : List Color) (rng : Nat → Nat) (p : Color → Bool)
    (h : l.all p = true) : (shuffle l rng).all p = true := by
  unfold shuffle
  rcases Nat.eq_zero_or_pos l.length with h0 | h0
  · rw [h0]; exact h
  · exact shuffleGo_all rng p _ l 0 (by omega) h

theorem shuffle_countMovable (l : List Color) (rng : Nat → Nat)
    (h : l.all Color.is_movable = true) : countMovable (shuffle l rng) = countMovable l := by
  rw [countMovable_eq_length _ (shuffle_all l rng _ h), shuffle_length,
    countMovable_eq_length _ h]

attribute [irreducible] shuffle

/-! ### Factory-fill lemmas -/

theorem getLast?_some_facts (bag : List Color) (t : Color) (h : bag.getLast? = some t) :
    bag.dropLast ++ [t] = bag := by
  have hne : bag ≠ [] := by
    intro he; rw [he] at h; simp at h
  have h2 : bag.getLast hne = t := by
    rw [List.getLast?_eq_getLast bag hne] at h
    exact Option.some.inj h
  rw [← h2]
  exact List.dropLast_append_getLast hne

theorem fillOne_count (k : Nat) : ∀ bag f : List Color,
    countMovable (fillOne bag f k).1 + countMovable (fillOne bag f k).2.1
      = countMovable bag + countMovable f := by
  induction k with
  | zero => intro bag f; rfl
  | succ k ih =>
    intro bag f
    unfold fillOne
    cases hlast : bag.getLast? with
    | none => rfl
    | some t =>
      simp only
      rw [ih]
      have hbag := getLast?_some_facts bag t hlast
      calc countMovable bag.dropLast + countMovable (f ++ [t])
          = countMovable bag.dropLast + countMovable [t] + countMovable f := by
            rw [countMovable_append]; omega
        _ = countMovable bag + countMovable f := by rw [← countMovable_append, hbag]

theorem fillOne_all (k : Nat) : ∀ bag f : List Color,
    bag.all Color.is_movable = true → f.all Color.is_movable = true →
    (fillOne bag f k).1.all Color.is_movable = true
      ∧ (fillOne bag f k).2.1.all Color.is_movable = true := by
  induction k with
  | zero => intro bag f hb hf; exact ⟨hb, hf⟩
  | succ k ih =>
    intro bag f hb hf
    unfold fillOne
    cases hlast : bag.getLast? with
    | none => exact ⟨hb, hf⟩
    | some t =>
      simp only
      have hbag := getLast?_some_facts bag t hlast
      have hb2 : (bag.dropLast ++ [t]).all Color.is_movable = true := hbag.symm ▸ hb
      rw [List.all_append] at hb2
      apply ih
      · exact (Bool.and_eq_true .. ▸ hb2).1
      · rw [List.all_append]
        exact Bool.and_eq_true .. ▸ ⟨hf, (Bool.and_eq_true .. ▸ hb2).2⟩

theorem fillOne_done_iff (k : Nat) : ∀ bag f : List Color,
    ((fillOne bag f k).2.2 = true ↔ k ≤ bag.length) := by
  induction k with
  | zero => intro bag f; simp [fillOne]
  | succ k ih =>
    intro bag f
    unfold fillOne
    cases hlast : bag.getLast? with
    | none =>
      have : bag = [] := by
        cases bag with
        | nil => rfl
        | cons a rest => rw [List.getLast?_eq_getLast _ (by simp)] at hlast; cases hlast
      simp [this]
    | some t =>
      simp only
      rw [ih]
      have hbag := getLast?_some_facts bag t hlast
      have hlen : bag.dropLast.length + 1 = bag.length := by
        rw [← hbag, List.length_append]; simp
      omega

theorem fillOne_done_lengths (k : Nat) : ∀ bag f : List Color, k ≤ bag.length →
    (fillOne bag f k).2.1.length = f.length + k
      ∧ (fillOne bag f k).1.length = bag.length - k := by
  induction k with
  | zero => intro bag f _; exact ⟨rfl, rfl⟩
  | succ k ih =>
    intro bag f hk
    unfold fillOne
    cases hlast : bag.getLast? with
    | none =>
      have : bag = [] := by
        cases bag with
        | nil => rfl
        | cons a rest => rw [List.getLast?_eq_getLast _ (by simp)] at hlast; cases hlast
      rw [this] at hk; simp at hk
    | some t =>
      simp only
      have hbag := getLast?_some_facts bag t hlast
      have hlen : bag.dropLast.length + 1 = bag.length := by
        rw [← hbag, List.length_append]; simp
      have := ih bag.dropLast (f ++ [t]) (by omega)
      rw [this.1, this.2, List.length_append]
      simp
      omega

theorem fillFactories_count : ∀ (fs : List (List Color)) (bag : List Color),
    countMovable (fillFactories bag fs).2.1 + ((fillFactories bag fs).1.map countMovable).sum
      = countMovable bag + (fs.map countMovable).sum := by
  intro fs
  induction fs with
  | nil => intro bag; simp [fillFactories]
  | cons f rest ih =>
    intro bag
    unfold fillFactories
    have h1 := fillOne_count 4 bag f
    by_cases hd : (fillOne bag f 4).2.2 = true
    · simp only [hd, if_true, List.map_cons, List.sum_cons]
      have h2 := ih (fillOne bag f 4).1
      omega
    · simp only [Bool.not_eq_true] at hd
      simp only [hd, Bool.false_eq_true, if_false, List.map_cons, List.sum_cons]
      omega

theorem fillFactories_all : ∀ (fs : List (List Color)) (bag : List Color),
    bag.all Color.is_movable = true → (∀ f ∈ fs, f.all Color.is_movable = true) →
    (fillFactories bag fs).2.1.all Color.is_movable = true
      ∧ ∀ f ∈ (fillFactories bag fs).1, f.all Color.is_movable = true := by
  intro fs
  induction fs with
  | nil => intro bag hb _; exact ⟨hb, by simp [fillFactories]⟩
  | cons f rest ih =>
    intro bag hb hf
    unfold fillFactories
    have h1 := fillOne_all 4 bag f hb (hf f (by simp))
    by_cases hd : (fillOne bag f 4).2.2 = true
    · simp only [hd, if_true]
      have h2 := ih (fillOne bag f 4).1 h1.1 (fun g hg => hf g (by simp [hg]))
      refine ⟨h2.1, ?_⟩
      intro g hg
      rcases List.mem_cons.mp hg with rfl | hg
      · exact h1.2
      · exact h2.2 g hg
    · simp only [Bool.not_eq_true] at hd
      simp only [hd, Bool.false_eq_true, if_false]
      refine ⟨h1.1, ?_⟩
      intro g hg
      rcases List.mem_cons.mp hg with rfl | hg
      · exact h1.2
      · exact hf g (by simp [hg])

theorem fillFactories_done_iff : ∀ (fs : List (List Color)) (bag : List Color),
    ((fillFactories bag fs).2.2 = true ↔ 4 * fs.length ≤ bag.length) := by
  intro fs
  induction fs with
  | nil => intro bag; simp [fillFactories]
  | cons f rest ih =>
    intro bag
    unfold fillFactories
    by_cases hd : (fillOne bag f 4).2.2 = true
    · simp only [hd, if_true]
      rw [ih (fillOne bag f 4).1]
      have h4 : 4 ≤ bag.length := (fillOne_done_iff 4 bag f).mp hd
      have hlen := (fillOne_done_lengths 4 bag f h4).2
      simp only [List.length_cons]
      omega
    · have h4 : ¬(4 ≤ bag.length) := fun hc => hd ((fillOne_done_iff 4 bag f).mpr hc)
      simp only [Bool.not_eq_true] at hd
      simp only [hd, Bool.false_eq_true, if_false]
      constructor
      · intro hc; cases hc
      · intro hc; simp only [List.length_cons] at hc; omega

theorem fillFactories_length : ∀ (fs : List (List Color)) (bag : List Color),
    (fillFactories bag fs).1.length = fs.length := by
  intro fs
  induction fs with
  | nil => intro bag; rfl
  | cons f rest ih =>
    intro bag
    unfold fillFactories
    by_cases hd : (fillOne bag f 4).2.2 = true
    · simp only [hd, if_true, List.length_cons, ih]
    · simp only [Bool.not_eq_true] at hd
      simp only [hd, Bool.false_eq_true, if_false, List.length_cons]

theorem fillFactories_done_lengths : ∀ (fs : List (List Color)) (bag : List Color),
    (fillFactories bag fs).2.2 = true → ∀ i < fs.length,
    ((fillFactories bag fs).1.getD i []).length = (fs.getD i []).length + 4 := by
  intro fs
  induction fs with
  | nil => intro bag _ i hi; simp at hi
  | cons f rest ih =>
    intro bag hdone i hi
    unfold fillFactories at hdone ⊢
    by_cases hd : (fillOne bag f 4).2.2 = true
    · simp only [hd, if_true] at hdone ⊢
      have h4 : 4 ≤ bag.length := (fillOne_done_iff 4 bag f).mp hd
      cases i with
      | zero =>
        simp only [List.getD_cons_zero]
        exact (fillOne_done_lengths 4 bag f h4).1
      | succ j =>
        simp only [List.getD_cons_succ]
        exact ih (fillOne bag f 4).1 hdone j (by simp at hi; omega)
    · simp only [Bool.not_eq_true] at hd
      simp only [hd, Bool.false_eq_true, if_false] at hdone

/-! ### Well-formedness invariants -/

/-- Structural well-formedness of a player board: a 5×5 grid, five working
rows, a blank (unlocked) row holds no tiles, and no row is locked to the
start token. -/
structure PWF (p : PlayerState) : Prop where
  grid_len : p.played_tiles.length = 5
  grid_rows : ∀ r ∈ p.played_tiles, r.length = 5
  wc_len : p.working_count.length = 5
  wcol_len : p.working_color.length = 5
  blank_zero : ∀ r, r < 5 → p.working_color.getD r Color.Blank = Color.Blank →
    p.working_count.getD r 0 = 0
  no_start : ∀ r, r < 5 → p.working_color.getD r Color.Blank ≠ Color.Start

/-- Well-formedness of a game state: every tile container holds only
movable colors, center entries are positive, the blank sentinel is never a
center key, an unclaimed first-player marker implies the start token sits
in the center with count one, and every board is well formed. -/
structure WF (s : GameState) : Prop where
  bag_movable : s.tile_bag.all Color.is_movable = true
  lid_movable : s.box_lid.all Color.is_movable = true
  fac_movable : ∀ f ∈ s.factories, f.all Color.is_movable = true
  center_pos : ∀ c k, s.center c = some k → 1 ≤ k
  center_blank : s.center Color.Blank = none
  center_start : s.start_player_idx = s.players.length → s.center Color.Start = some 1
  players_wf : ∀ p ∈ s.players, PWF p
  trash_ok : ∀ p ∈ s.players,
    p.trashed_tiles.all (fun c => c.is_movable || c == Color.Start) = true

/-- States reachable from `GameState::new` (with at least one player, since
construction draws a random index below the player count) by any sequence
of `start_round` calls and successfully returning `take_turn` /
`finish_round` calls.  Calls that return an error leave the state
unchanged (see the atomicity results), so they reach no further states. -/
inductive Reachable : GameState → Prop where
  | init (names : List String) (rng : Nat → Nat) (h : 0 < names.length) :
      Reachable (GameState.new names rng)
  | startr {s : GameState} : Reachable s → Reachable (start_round s)
  | turn {s s2 : GameState} {m : Move} {b : Bool} :
      Reachable s → take_turn s m = (s2, .ok b) → Reachable s2
  | finishr {s s2 : GameState} {r : Nat → Nat} {b : Bool} :
      Reachable s → finish_round s r = (s2, .ok b) → Reachable s2

/-! ### Player-level lemmas -/

theorem add_tiles_err_eq (p : PlayerState) (row : Nat) (c : Color) (n : Nat) (e : String)
    (h : (add_tiles p row c n).2 = some e) : (add_tiles p row c n).1 = p := by
  unfold add_tiles at h ⊢
  by_cases h1 : (row == 5 : Bool)
  · rw [if_pos h1] at h; exact absurd h (by simp)
  · rw [if_neg h1] at h ⊢
    by_cases h2 : row > 5
    · rw [if_pos h2]
    · rw [if_neg h2] at h ⊢
      by_cases h3 : (c == Color.Start : Bool)
      · rw [if_pos h3]
      · rw [if_neg h3] at h ⊢
        by_cases h4 : (is_played p row c : Bool)
        · rw [if_pos h4]
        · rw [if_neg h4] at h ⊢
          by_cases h5 : 1 + row ≤ p.working_count.getD row 0
          · rw [if_pos h5]
          · rw [if_neg h5] at h ⊢
            by_cases h6 : p.working_color.getD row Color.Blank ≠ c
                ∧ p.working_color.getD row Color.Blank ≠ Color.Blank
            · rw [if_pos h6]
            · rw [if_neg h6] at h
              by_cases h7 : 1 + row < n + p.working_count.getD row 0
              · rw [if_pos h7] at h; exact absurd h (by simp)
              · rw [if_neg h7] at h; exact absurd h (by simp)

theorem add_tiles_ok_of_valid (p : PlayerState) (row : Nat) (c : Color) (n : Nat)
    (hrow : row < 5) (hplayed : is_played p row c = false)
    (hcap : p.working_count.getD row 0 ≤ row)
    (hlock : p.working_color.getD row Color.Blank = c
      ∨ p.working_color.getD row Color.Blank = Color.Blank)
    (hc : c ≠ Color.Start) :
    (add_tiles p row c n).2 = none := by
  unfold add_tiles
  rw [if_neg (by simp only [beq_iff_eq]; omega : ¬((row == 5 : Bool) = true)),
      if_neg (by omega : ¬(row > 5)),
      if_neg (by simp only [beq_iff_eq]; exact hc : ¬((c == Color.Start : Bool) = true)),
      if_neg (by simp [hplayed] : ¬(is_played p row c = true)),
      if_neg (by omega : ¬(1 + row ≤ p.working_count.getD row 0)),
      if_neg (by tauto : ¬(p.working_color.getD row Color.Blank ≠ c
        ∧ p.working_color.getD row Color.Blank ≠ Color.Blank))]
  by_cases h7 : 1 + row < n + p.working_count.getD row 0
  · rw [if_pos h7]
  · rw [if_neg h7]

theorem add_tiles_trash_row (p : PlayerState) (c : Color) (n : Nat) :
    add_tiles p 5 c n = (send_to_trash p c n, none) := rfl

theorem add_tiles_ok_cases (p : PlayerState) (row : Nat) (c : Color) (n : Nat)
    (h : (add_tiles p row c n).2 = none) :
    (row = 5 ∧ (add_tiles p row c n).1 = send_to_trash p c n)
    ∨ (row < 5 ∧ c ≠ Color.Start ∧ is_played p row c = false
       ∧ p.working_count.getD row 0 ≤ row
       ∧ (p.working_color.getD row Color.Blank = c
          ∨ p.working_color.getD row Color.Blank = Color.Blank)
       ∧ (add_tiles p row c n).1 =
         { p with working_color := p.working_color.set row c,
                  trashed_tiles := p.trashed_tiles
                    ++ List.replicate (n - min n (row + 1 - p.working_count.getD row 0)) c,
                  working_count := p.working_count.set row
                    (p.working_count.getD row 0
                      + min n (row + 1 - p.working_count.getD row 0)) }) := by
  unfold add_tiles at h ⊢
  by_cases h1 : (row == 5 : Bool)
  · rw [if_pos h1] at h ⊢
    exact Or.inl ⟨by simpa using h1, rfl⟩
  · rw [if_neg h1] at h ⊢
    by_cases h2 : row > 5
    · rw [if_pos h2] at h; exact absurd h (by simp)
    · rw [if_neg h2] at h ⊢
      by_cases h3 : (c == Color.Start : Bool)
      · rw [if_pos h3] at h; exact absurd h (by simp)
      · rw [if_neg h3] at h ⊢
        by_cases h4 : (is_played p row c : Bool)
        · rw [if_pos h4] at h; exact absurd h (by simp)
        · rw [if_neg h4] at h ⊢
          by_cases h5 : 1 + row ≤ p.working_count.getD row 0
          · rw [if_pos h5] at h; exact absurd h (by simp)
          · rw [if_neg h5] at h ⊢
            by_cases h6 : p.working_color.getD row Color.Blank ≠ c
                ∧ p.working_color.getD row Color.Blank ≠ Color.Blank
            · rw [if_pos h6] at h; exact absurd h (by simp)
            · rw [if_neg h6] at h ⊢
              refine Or.inr ⟨by simp at h1; omega, by simpa using h3,
                by simpa using h4, by omega, by tauto, ?_⟩
              by_cases h7 : 1 + row < n + p.working_count.getD row 0
              · rw [if_pos h7]
                rw [Nat.min_eq_right
                  (by omega : row + 1 - p.working_count.getD row 0 ≤ n)]
                simp only [send_to_trash]
                have e2 : p.working_count.getD row 0
                      + (n - (n + p.working_count.getD row 0 - (1 + row)))
                    = p.working_count.getD row 0
                      + (row + 1 - p.working_count.getD row 0) := by omega
                have e1 : n + p.working_count.getD row 0 - (1 + row)
                    = n - (row + 1 - p.working_count.getD row 0) := by omega
                rw [e2, e1]
              · rw [if_neg h7]
                rw [Nat.min_eq_left
                  (by omega : n ≤ row + 1 - p.working_count.getD row 0)]
                simp

theorem add_tiles_scores (p : PlayerState) (row : Nat) (c : Color) (n : Nat) :
    (add_tiles p row c n).1.scores = p.scores := by
  cases ha : (add_tiles p row c n).2 with
  | some e => rw [add_tiles_err_eq p row c n e ha]
  | none =>
    rcases add_tiles_ok_cases p row c n ha with ⟨_, heq⟩ | ⟨_, _, _, _, _, heq⟩ <;>
      simp only [heq, send_to_trash]

theorem add_tiles_grid (p : PlayerState) (row : Nat) (c : Color) (n : Nat) :
    (add_tiles p row c n).1.played_tiles = p.played_tiles := by
  cases ha : (add_tiles p row c n).2 with
  | some e => rw [add_tiles_err_eq p row c n e ha]
  | none =>
    rcases add_tiles_ok_cases p row c n ha with ⟨_, heq⟩ | ⟨_, _, _, _, _, heq⟩ <;>
      simp only [heq, send_to_trash]

theorem sum_range5_update (g g2 : Nat → Nat) (row : Nat) (hrow : row < 5)
    (hne : ∀ r, r < 5 → r ≠ row → g2 r = g r) :
    ((List.range 5).map g2).sum + g row = ((List.range 5).map g).sum + g2 row := by
  have h5 : List.range 5 = [0, 1, 2, 3, 4] := rfl
  rw [h5]
  simp only [List.map_cons, List.map_nil, List.sum_cons, List.sum_nil]
  interval_cases row
  · rw [hne 1 (by omega) (by omega), hne 2 (by omega) (by omega),
        hne 3 (by omega) (by omega), hne 4 (by omega) (by omega)]; omega
  · rw [hne 0 (by omega) (by omega), hne 2 (by omega) (by omega),
        hne 3 (by omega) (by omega), hne 4 (by omega) (by omega)]; omega
  · rw [hne 0 (by omega) (by omega), hne 1 (by omega) (by omega),
        hne 3 (by omega) (by omega), hne 4 (by omega) (by omega)]; omega
  · rw [hne 0 (by omega) (by omega), hne 1 (by omega) (by omega),
        hne 2 (by omega) (by omega), hne 4 (by omega) (by omega)]; omega
  · rw [hne 0 (by omega) (by omega), hne 1 (by omega) (by omega),
        hne 2 (by omega) (by omega), hne 3 (by omega) (by omega)]; omega

theorem stagingCount_set (p : PlayerState) (row : Nat) (c : Color) (k2 : Nat) (t : List Color)
    (hrow : row < 5) (hcol : p.working_color.length = 5) (hcnt : p.working_count.length = 5) :
    stagingCount { p with working_color := p.working_color.set row c,
                          working_count := p.working_count.set row k2,
                          trashed_tiles := t }
      + (if (p.working_color.getD row Color.Blank).is_movable
         then p.working_count.getD row 0 else 0)
    = stagingCount p + (if c.is_movable then k2 else 0) := by
  have hc1 : (p.working_color.set row c).getD row Color.Blank = c :=
    getD_set_self _ _ _ _ (by omega)
  have hc2 : (p.working_count.set row k2).getD row 0 = k2 :=
    getD_set_self _ _ _ _ (by omega)
  have h := sum_range5_update
    (fun r => if (p.working_color.getD r Color.Blank).is_movable
        then p.working_count.getD r 0 else 0)
    (fun r => if ((p.working_color.set row c).getD r Color.Blank).is_movable
        then (p.working_count.set row k2).getD r 0 else 0)
    row hrow (fun r _ hne => by
      beta_reduce
      rw [getD_set_ne _ _ _ _ _ (fun hh => hne hh.symm),
          getD_set_ne _ _ _ _ _ (fun hh => hne hh.symm)])
  simp only at h
  rw [hc1, hc2] at h
  exact h

theorem add_tiles_ok_playerCount (p : PlayerState) (row : Nat) (c : Color) (n : Nat)
    (hwf : PWF p) (hcm : c.is_movable = true)
    (h : (add_tiles p row c n).2 = none) :
    playerCount (add_tiles p row c n).1 = playerCount p + n := by
  rcases add_tiles_ok_cases p row c n h with ⟨_, heq⟩ | ⟨hr5, hcS, _, hcap, hlock, heq⟩
  · rw [heq]
    have h1 : stagingCount (send_to_trash p c n) = stagingCount p := rfl
    have h2 : (send_to_trash p c n).played_tiles = p.played_tiles := rfl
    have h3 : (send_to_trash p c n).trashed_tiles
        = p.trashed_tiles ++ List.replicate n c := rfl
    unfold playerCount
    rw [h1, h2, h3, countMovable_append, countMovable_replicate, if_pos hcm]
    omega
  · have hstag := stagingCount_set p row c
      (p.working_count.getD row 0 + min n (row + 1 - p.working_count.getD row 0))
      (p.trashed_tiles ++ List.replicate (n - min n (row + 1 - p.working_count.getD row 0)) c)
      hr5 hwf.wcol_len hwf.wc_len
    rw [if_pos hcm] at hstag
    have hold : (if (p.working_color.getD row Color.Blank).is_movable
        then p.working_count.getD row 0 else 0) = p.working_count.getD row 0 := by
      rcases hlock with hl | hl
      · rw [hl, if_pos hcm]
      · rw [hl]
        have hz := hwf.blank_zero row hr5 hl
        rw [hz]
        simp [Color.is_movable]
    rw [hold] at hstag
    rw [heq]
    unfold playerCount
    simp only
    rw [countMovable_append, countMovable_replicate, if_pos hcm]
    have hmin : min n (row + 1 - p.working_count.getD row 0) ≤ n := Nat.min_le_left _ _
    omega

theorem add_tiles_ok_PWF (p : PlayerState) (row : Nat) (c : Color) (n : Nat)
    (hwf : PWF p) (hcS : c ≠ Color.Start) (hcB : c ≠ Color.Blank)
    (h : (add_tiles p row c n).2 = none) : PWF (add_tiles p row c n).1 := by
  rcases add_tiles_ok_cases p row c n h with ⟨_, heq⟩ | ⟨hr5, _, _, _, _, heq⟩
  · rw [heq]
    exact ⟨hwf.grid_len, hwf.grid_rows, hwf.wc_len, hwf.wcol_len, hwf.blank_zero, hwf.no_start⟩
  · rw [heq]
    refine ⟨hwf.grid_len, hwf.grid_rows, ?_, ?_, ?_, ?_⟩
    · simp only [List.length_set]
      exact hwf.wc_len
    · simp only [List.length_set]
      exact hwf.wcol_len
    · intro r hr hbl
      by_cases hrr : r = row
      · subst hrr
        rw [getD_set_self _ _ _ _ (by rw [hwf.wcol_len]; omega)] at hbl
        exact absurd hbl hcB
      · rw [getD_set_ne _ _ _ _ _ (fun hh => hrr hh.symm)] at hbl
        rw [getD_set_ne _ _ _ _ _ (fun hh => hrr hh.symm)]
        exact hwf.blank_zero r hr hbl
    · intro r hr
      by_cases hrr : r = row
      · subst hrr
        rw [getD_set_self _ _ _ _ (by rw [hwf.wcol_len]; omega)]
        exact hcS
      · rw [getD_set_ne _ _ _ _ _ (fun hh => hrr hh.symm)]
        exact hwf.no_start r hr

theorem filter_length_set_true (r : List Bool) (col : Nat) (hcol : col < r.length)
    (h : r.getD col false = false) :
    ((r.set col true).filter (fun x => x)).length = (r.filter (fun x => x)).length + 1 := by
  induction r generalizing col with
  | nil => simp at hcol
  | cons b rest ih =>
    cases col with
    | zero =>
      have hb : b = false := h
      subst hb
      simp [List.filter]
    | succ j =>
      simp only [List.length_cons, Nat.succ_lt_succ_iff] at hcol
      have hj : rest.getD j false = false := h
      show ((b :: rest.set j true).filter (fun x => x)).length
          = ((b :: rest).filter (fun x => x)).length + 1
      cases b <;> simp [List.filter, ih j hcol hj]

theorem gridCount_set_true (g : List (List Bool)) (row col : Nat)
    (hrow : row < g.length) (hcol : col < (g.getD row []).length)
    (hfalse : (g.getD row []).getD col false = false) :
    gridCount (g.set row ((g.getD row []).set col true)) = gridCount g + 1 := by
  unfold gridCount
  have h := sum_map_set g row ((g.getD row []).set col true) []
    (fun r => (r.filter (fun x => x)).length) hrow
  beta_reduce at h
  rw [filter_length_set_true _ _ hcol hfalse] at h
  omega

theorem scoreRowsGo_fields (rows : List Nat) : ∀ (p : PlayerState) (rs : Int) (ret : List Color),
    (scoreRowsGo rows p rs ret).1.trashed_tiles = p.trashed_tiles
    ∧ (scoreRowsGo rows p rs ret).1.scores = p.scores
    ∧ (scoreRowsGo rows p rs ret).1.display_name = p.display_name := by
  induction rows with
  | nil => intro p rs ret; exact ⟨rfl, rfl, rfl⟩
  | cons row rest ih =>
    intro p rs ret
    unfold scoreRowsGo
    by_cases h1 : p.working_count.getD row 0 ≤ row
    · rw [if_pos h1]
      exact ih p rs ret
    · rw [if_neg h1]
      by_cases h2 : (p.played_tiles.getD row []).getD
          (played_column row (p.working_color.getD row Color.Blank)) false
      · rw [if_pos h2]
        exact ⟨rfl, rfl, rfl⟩
      · rw [if_neg h2]
        exact ih _ _ _

theorem stagingSum_lists (wcol : List Color) (wcnt : List Nat) (row : Nat) (c : Color) (k2 : Nat)
    (hrow : row < 5) (hcol : wcol.length = 5) (hcnt : wcnt.length = 5) :
    ((List.range 5).map (fun r => if ((wcol.set row c).getD r Color.Blank).is_movable
        then (wcnt.set row k2).getD r 0 else 0)).sum
      + (if (wcol.getD row Color.Blank).is_movable then wcnt.getD row 0 else 0)
    = ((List.range 5).map (fun r => if (wcol.getD r Color.Blank).is_movable
        then wcnt.getD r 0 else 0)).sum + (if c.is_movable then k2 else 0) := by
  have hc1 : (wcol.set row c).getD row Color.Blank = c :=
    getD_set_self _ _ _ _ (by omega)
  have hc2 : (wcnt.set row k2).getD row 0 = k2 :=
    getD_set_self _ _ _ _ (by omega)
  have h := sum_range5_update
    (fun r => if (wcol.getD r Color.Blank).is_movable then wcnt.getD r 0 else 0)
    (fun r => if ((wcol.set row c).getD r Color.Blank).is_movable
        then (wcnt.set row k2).getD r 0 else 0)
    row hrow (fun r _ hne => by
      beta_reduce
      rw [getD_set_ne _ _ _ _ _ (fun hh => hne hh.symm),
          getD_set_ne _ _ _ _ _ (fun hh => hne hh.symm)])
  simp only at h
  rw [hc1, hc2] at h
  exact h

theorem scoreRowsGo_inv (rows : List Nat) : ∀ (p : PlayerState) (rs : Int) (ret : List Color),
    PWF p → (∀ r ∈ rows, r < 5) → ret.all Color.is_movable = true →
    (scoreRowsGo rows p rs ret).2.2.2 = none →
    stagingCount (scoreRowsGo rows p rs ret).1
      + gridCount (scoreRowsGo rows p rs ret).1.played_tiles
      + countMovable (scoreRowsGo rows p rs ret).2.2.1
      = stagingCount p + gridCount p.played_tiles + countMovable ret
    ∧ PWF (scoreRowsGo rows p rs ret).1
    ∧ (scoreRowsGo rows p rs ret).2.2.1.all Color.is_movable = true := by
  induction rows with
  | nil => intro p rs ret hwf _ hrm _; exact ⟨rfl, hwf, hrm⟩
  | cons row rest ih =>
    intro p rs ret hwf hrows hrm hok
    have hr5 : row < 5 := hrows row (by simp)
    unfold scoreRowsGo at hok ⊢
    by_cases h1 : p.working_count.getD row 0 ≤ row
    · rw [if_pos h1] at hok ⊢
      exact ih p rs ret hwf (fun r hr => hrows r (by simp [hr])) hrm hok
    · rw [if_neg h1] at hok ⊢
      by_cases h2 : (p.played_tiles.getD row []).getD
          (played_column row (p.working_color.getD row Color.Blank)) false
      · rw [if_pos h2] at hok
        exact absurd hok (by simp)
      · rw [if_neg h2] at hok ⊢
        simp only [] at hok ⊢
        -- the flushed color is locked and movable
        have hcount : 0 < p.working_count.getD row 0 := by omega
        have hcne : p.working_color.getD row Color.Blank ≠ Color.Blank := by
          intro hb
          rw [hwf.blank_zero row hr5 hb] at hcount
          omega
        have hcns : p.working_color.getD row Color.Blank ≠ Color.Start :=
          hwf.no_start row hr5
        have hcm : (p.working_color.getD row Color.Blank).is_movable = true := by
          unfold Color.is_movable
          cases hcc : p.working_color.getD row Color.Blank <;> simp_all
        -- name the one-step successor board
        set color := p.working_color.getD row Color.Blank with hcolor
        set column := played_column row color with hcolumn
        set grid1 := p.played_tiles.set row ((p.played_tiles.getD row []).set column true)
          with hgrid1
        set p1 : PlayerState := ({ p with
            played_tiles := grid1,
            working_color := p.working_color.set row Color.Blank,
            working_count := p.working_count.set row 0 }) with hp1
        -- well-formedness of the successor
        have hrowlen : (p.played_tiles.getD row []).length = 5 :=
          hwf.grid_rows _ (getD_mem_of_lt _ _ _ (by rw [hwf.grid_len]; omega))
        have hcollt : column < (p.played_tiles.getD row []).length := by
          rw [hrowlen, hcolumn]
          exact Nat.mod_lt _ (by omega)
        have hwf1 : PWF p1 := by
          refine ⟨?_, ?_, ?_, ?_, ?_, ?_⟩
          · show grid1.length = 5
            rw [hgrid1, List.length_set, hwf.grid_len]
          · intro r hr
            have hr2 : r ∈ grid1 := hr
            rw [hgrid1] at hr2
            rcases List.mem_or_eq_of_mem_set hr2 with hr2 | hr2
            · exact hwf.grid_rows r hr2
            · rw [hr2, List.length_set]
              exact hrowlen
          · show (p.working_count.set row 0).length = 5
            rw [List.length_set, hwf.wc_len]
          · show (p.working_color.set row Color.Blank).length = 5
            rw [List.length_set, hwf.wcol_len]
          · intro r hr hbl
            by_cases hrr : r = row
            · subst hrr
              exact getD_set_self _ _ _ _ (by rw [hwf.wc_len]; omega)
            · rw [getD_set_ne _ _ _ _ _ (fun hh => hrr hh.symm)] at hbl
              rw [getD_set_ne _ _ _ _ _ (fun hh => hrr hh.symm)]
              exact hwf.blank_zero r hr hbl
          · intro r hr
            by_cases hrr : r = row
            · subst hrr
              rw [getD_set_self _ _ _ _ (by rw [hwf.wcol_len]; omega)]
              intro hc; cases hc
            · rw [getD_set_ne _ _ _ _ _ (fun hh => hrr hh.symm)]
              exact hwf.no_start r hr
        -- one-step accounting
        have hstag : stagingCount p1 + p.working_count.getD row 0 = stagingCount p := by
          have h := stagingSum_lists p.working_color p.working_count row Color.Blank 0
            hr5 hwf.wcol_len hwf.wc_len
          rw [if_pos hcm] at h
          simpa [stagingCount, Color.is_movable] using h
        have hgc : gridCount p1.played_tiles = gridCount p.played_tiles + 1 := by
          show gridCount grid1 = _
          rw [hgrid1]
          exact gridCount_set_true _ _ _ (by rw [hwf.grid_len]; omega) hcollt (by simpa using h2)
        have hret : countMovable (ret ++ List.replicate (p.working_count.getD row 0 - 1) color)
            = countMovable ret + (p.working_count.getD row 0 - 1) := by
          rw [countMovable_append, countMovable_replicate, if_pos hcm]
        have hrm1 : (ret ++ List.replicate (p.working_count.getD row 0 - 1) color).all
            Color.is_movable = true := by
          rw [List.all_append, Bool.and_eq_true]
          refine ⟨hrm, ?_⟩
          rw [List.all_eq_true]
          intro x hx
          rw [List.eq_of_mem_replicate hx]
          exact hcm
        have hrec := ih p1 (rs + score_tile grid1 row column)
          (ret ++ List.replicate (p.working_count.getD row 0 - 1) color)
          hwf1 (fun r hr => hrows r (by simp [hr])) hrm1 hok
        refine ⟨?_, hrec.2.1, hrec.2.2⟩
        rw [hrec.1, hgc, hret]
        omega

/-- The round delta of `score_round` before the score-floor clamp: the sum
of adjacency scores of the newly flushed grid tiles plus the positional
trash penalties. -/
def rawRoundDelta (p : PlayerState) : Int :=
  (scoreRowsGo (List.range 5) p 0 []).2.1 + trashPenaltiesGo 0 p.trashed_tiles

theorem score_round_err_state (p : PlayerState) (e : String)
    (h : (score_round p).2 = .error e) :
    (score_round p).1.scores = p.scores ∧ (score_round p).1.trashed_tiles = p.trashed_tiles := by
  unfold score_round at h ⊢
  rcases hsr : scoreRowsGo (List.range 5) p 0 [] with ⟨p1, rs, ret, err⟩
  have hf := scoreRowsGo_fields (List.range 5) p 0 []
  rw [hsr] at hf h
  cases err with
  | some e2 => exact ⟨hf.2.1, hf.1⟩
  | none => simp at h

theorem score_round_ok_spec (p : PlayerState) (q : PlayerState) (ret : List Color)
    (h : score_round p = (q, .ok ret)) :
    q.scores = p.scores
      ++ [if p.score + rawRoundDelta p < 0 then -p.score else rawRoundDelta p] := by
  unfold score_round at h
  unfold rawRoundDelta
  rcases hsr : scoreRowsGo (List.range 5) p 0 [] with ⟨p1, rs, ret1, err⟩
  have hf := scoreRowsGo_fields (List.range 5) p 0 []
  rw [hsr] at hf h
  cases err with
  | some e2 => simp at h
  | none =>
    simp only at h
    have hq := (congrArg Prod.fst h).symm
    simp only at hq
    rw [hq]
    show p1.scores ++ [if p1.scores.sum + (rs + trashPenaltiesGo 0 p1.trashed_tiles) < 0
        then -(p1.scores.sum) else rs + trashPenaltiesGo 0 p1.trashed_tiles]
      = p.scores ++ [if p.scores.sum + (rs + trashPenaltiesGo 0 p.trashed_tiles) < 0
        then -(p.scores.sum) else rs + trashPenaltiesGo 0 p.trashed_tiles]
    have h1 := hf.1
    have h2 := hf.2.1
    simp only at h1 h2
    rw [h1, h2]

theorem PWF_of_fields (p q : PlayerState) (hg : q.played_tiles = p.played_tiles)
    (hc : q.working_count = p.working_count) (hw : q.working_color = p.working_color)
    (h : PWF p) : PWF q := by
  refine ⟨?_, ?_, ?_, ?_, ?_, ?_⟩
  · rw [hg]; exact h.grid_len
  · rw [hg]; exact h.grid_rows
  · rw [hc]; exact h.wc_len
  · rw [hw]; exact h.wcol_len
  · intro r hr hbl
    rw [hw] at hbl
    rw [hc]
    exact h.blank_zero r hr hbl
  · intro r hr
    rw [hw]
    exact h.no_start r hr

theorem filter_ne_start_movable (l : List Color)
    (h : l.all (fun c => c.is_movable || c == Color.Start) = true) :
    (l.filter (fun c => !(c == Color.Start))).all Color.is_movable = true := by
  rw [List.all_eq_true]
  intro x hx
  rw [List.mem_filter] at hx
  have hor := (List.all_eq_true.mp h) x hx.1
  rw [Bool.or_eq_true] at hor
  rcases hor with hm | hs
  · exact hm
  · rw [hs] at hx
    cases hx.2

theorem score_round_ok_count (p q : PlayerState) (ret : List Color) (hwf : PWF p)
    (htro : p.trashed_tiles.all (fun c => c.is_movable || c == Color.Start) = true)
    (h : score_round p = (q, .ok ret)) :
    playerCount q + countMovable ret = playerCount p ∧ PWF q
    ∧ ret.all Color.is_movable = true ∧ q.trashed_tiles = [] := by
  unfold score_round at h
  rcases hsr : scoreRowsGo (List.range 5) p 0 [] with ⟨p1, rs, ret1, err⟩
  have hf := scoreRowsGo_fields (List.range 5) p 0 []
  have hinv := scoreRowsGo_inv (List.range 5) p 0 [] hwf (by intro r hr; simpa using hr) rfl
  rw [hsr] at hf h hinv
  cases err with
  | some e2 => simp at h
  | none =>
    simp only at h hinv
    obtain ⟨hsum, hwf1, hretm⟩ := hinv trivial
    have hq := (congrArg Prod.fst h).symm
    simp only at hq
    have hret0 := congrArg Prod.snd h
    simp only at hret0
    have hret : ret1 ++ p1.trashed_tiles.filter (fun c => !(c == Color.Start)) = ret :=
      Except.ok.inj hret0
    have hgcq : q.played_tiles = p1.played_tiles := by rw [hq]
    have htrq : q.trashed_tiles = [] := by rw [hq]
    have hwcq : q.working_count = p1.working_count := by rw [hq]
    have hwwq : q.working_color = p1.working_color := by rw [hq]
    have hsc : stagingCount q = stagingCount p1 := by
      unfold stagingCount
      rw [hwcq, hwwq]
    refine ⟨?_, PWF_of_fields p1 q hgcq hwcq hwwq hwf1, ?_, htrq⟩
    · have hcm : countMovable ret = countMovable ret1 + countMovable p.trashed_tiles := by
        rw [← hret, countMovable_append, countMovable_filter_ne_start, hf.1]
      unfold playerCount
      rw [hsc, hgcq, htrq, hcm]
      have hz : countMovable ([] : List Color) = 0 := rfl
      rw [hz]
      omega
    · rw [← hret, List.all_append, Bool.and_eq_true]
      refine ⟨hretm, ?_⟩
      apply filter_ne_start_movable
      rw [hf.1]
      exact htro

theorem num_full_rows_nonneg (p : PlayerState) : 0 ≤ num_full_rows p := by
  unfold num_full_rows
  apply List.sum_nonneg
  intro x hx
  simp only [List.mem_map] at hx
  obtain ⟨r, _, hr⟩ := hx
  rw [← hr]
  split <;> norm_num

theorem num_full_columns_nonneg (p : PlayerState) : 0 ≤ num_full_columns p := by
  unfold num_full_columns
  positivity

theorem num_full_colors_nonneg (p : PlayerState) : 0 ≤ num_full_colors p := by
  unfold num_full_colors
  positivity

theorem score_bonuses_score (p : PlayerState) (h : 0 ≤ p.score) :
    0 ≤ (score_bonuses p).score := by
  unfold score_bonuses PlayerState.score at *
  simp only [List.sum_append]
  have h1 := num_full_rows_nonneg p
  have h2 := num_full_columns_nonneg p
  have h3 := num_full_colors_nonneg p
  have hb1 : 0 ≤ ROW_BONUS * num_full_rows p := by unfold ROW_BONUS; omega
  have hb2 : 0 ≤ COL_BONUS * num_full_columns p := by unfold COL_BONUS; omega
  have hb3 : 0 ≤ KIND_BONUS * num_full_colors p := by unfold KIND_BONUS; omega
  simp only [List.sum_cons, List.sum_nil]
  omega

theorem score_round_score_nonneg (p : PlayerState) (h : 0 ≤ p.score) :
    0 ≤ (score_round p).1.score := by
  cases hres : (score_round p).2 with
  | error e =>
    have := score_round_err_state p e hres
    unfold PlayerState.score
    rw [this.1]
    exact h
  | ok ret =>
    have hspec := score_round_ok_spec p (score_round p).1 ret
      (by rw [← hres])
    unfold PlayerState.score at h hspec ⊢
    rw [hspec, List.sum_append]
    simp only [List.sum_cons, List.sum_nil]
    split <;> omega

/-- Player-board states reachable by any sequence of the board's public
operations. -/
inductive PReachable : PlayerState → Prop where
  | init (name : String) : PReachable (PlayerState.new name)
  | add {p : PlayerState} (row : Nat) (c : Color) (n : Nat) :
      PReachable p → PReachable (add_tiles p row c n).1
  | trash {p : PlayerState} (c : Color) (n : Nat) :
      PReachable p → PReachable (send_to_trash p c n)
  | score {p : PlayerState} : PReachable p → PReachable (score_round p).1
  | bonus {p : PlayerState} : PReachable p → PReachable (score_bonuses p)

theorem preachable_score_nonneg (p : PlayerState) (h : PReachable p) : 0 ≤ p.score := by
  induction h with
  | init name => norm_num [PlayerState.score, PlayerState.new]
  | add row c n _ ih =>
    unfold PlayerState.score at *
    rw [add_tiles_scores]
    exact ih
  | trash c n _ ih => exact ih
  | score _ ih => exact score_round_score_nonneg _ ih
  | bonus _ ih => exact score_bonuses_score _ ih

/-! ### Center pool lemmas -/

theorem centerCount_insert_movable (m : Color → Option Nat) (c : Color) (n : Nat)
    (hc : c.is_movable = true) :
    centerCount (centerInsert m c n) + (m c).getD 0 = centerCount m + n := by
  cases c <;> simp [Color.is_movable] at hc <;>
    simp [centerCount, centerInsert, ALL_COLORS] <;> omega

theorem centerCount_insert_start (m : Color → Option Nat) (n : Nat) :
    centerCount (centerInsert m Color.Start n) = centerCount m := by
  simp [centerCount, centerInsert, ALL_COLORS]

theorem centerCount_remove_movable (m : Color → Option Nat) (c : Color)
    (hc : c.is_movable = true) :
    centerCount (centerRemove m c) + (m c).getD 0 = centerCount m := by
  cases c <;> simp [Color.is_movable] at hc <;>
    simp [centerCount, centerRemove, ALL_COLORS] <;> omega

theorem centerCount_remove_start (m : Color → Option Nat) :
    centerCount (centerRemove m Color.Start) = centerCount m := by
  simp [centerCount, centerRemove, ALL_COLORS]

theorem centerAdd_count (m : Color → Option Nat) (c : Color) (hc : c.is_movable = true) :
    centerCount (centerAdd m c) = centerCount m + 1 := by
  unfold centerAdd
  have h := centerCount_insert_movable m c ((m c).getD 0 + 1) hc
  omega

theorem spill_count (ts : List Color) : ∀ (m : Color → Option Nat) (c : Color),
    ts.all Color.is_movable = true →
    centerCount (spill m ts c) = centerCount m + (ts.filter (fun t => !(t == c))).length := by
  induction ts with
  | nil => intro m c _; simp [spill]
  | cons t rest ih =>
    intro m c hall
    rw [List.all_cons, Bool.and_eq_true] at hall
    show centerCount (spill (if t = c then m else centerAdd m t) rest c) = _
    by_cases htc : t = c
    · rw [if_pos htc, ih m c hall.2]
      simp [htc]
    · rw [if_neg htc, ih _ c hall.2, centerAdd_count m t hall.1]
      simp only [List.filter_cons]
      have : (!(t == c)) = true := by simp [htc]
      rw [this]
      simp [List.length_cons]
      omega

theorem spill_not_mem (ts : List Color) : ∀ (m : Color → Option Nat) (c x : Color),
    (∀ t ∈ ts, t ≠ x) → spill m ts c x = m x := by
  induction ts with
  | nil => intro m c x _; rfl
  | cons t rest ih =>
    intro m c x hx
    show spill (if t = c then m else centerAdd m t) rest c x = m x
    rw [ih _ c x (fun u hu => hx u (by simp [hu]))]
    by_cases htc : t = c
    · rw [if_pos htc]
    · rw [if_neg htc]
      unfold centerAdd centerInsert
      rw [if_neg (fun hh => hx t (by simp) hh.symm)]

theorem spill_pos (ts : List Color) : ∀ (m : Color → Option Nat) (c : Color),
    (∀ y k, m y = some k → 1 ≤ k) →
    ∀ y k, spill m ts c y = some k → 1 ≤ k := by
  induction ts with
  | nil => intro m c hm y k h; exact hm y k h
  | cons t rest ih =>
    intro m c hm y k h
    have h2 : spill (if t = c then m else centerAdd m t) rest c y = some k := h
    refine ih _ c ?_ y k h2
    intro z j hz
    by_cases htc : t = c
    · rw [if_pos htc] at hz
      exact hm z j hz
    · rw [if_neg htc] at hz
      unfold centerAdd centerInsert at hz
      by_cases hzt : z = t
      · rw [if_pos hzt] at hz
        have := Option.some.inj hz
        omega
      · rw [if_neg hzt] at hz
        exact hm z j hz

/-! ### take_turn dissection -/

/-- The game state after the current player has drafted `n` tiles and the
source mutation has been committed, but before any start-token handling. -/
def turnMid (s : GameState) (m : Move) (n : Nat) : GameState :=
  commit_source
    { s with
      players := s.players.set s.curr_player_idx
        (add_tiles (s.players.getD s.curr_player_idx (PlayerState.new ""))
          m.working_row m.color n).1 }
    m

/-- The game state of a successful `take_turn` just before the round-over
check (start token claimed when due, turn not yet advanced). -/
def turnFinal (s : GameState) (m : Move) (n : Nat) : GameState :=
  if m.is_from_center && is_start_token_available s
  then claim_token (turnMid s m n) else turnMid s m n

theorem take_turn_ok_cases (s : GameState) (m : Move) (s2 : GameState) (b : Bool)
    (h : take_turn s m = (s2, .ok b)) :
    ∃ n, m.check_validity = none
      ∧ num_tiles_taken s m = .ok n ∧ n ≠ 0
      ∧ s.curr_player_idx < s.players.length
      ∧ (add_tiles (s.players.getD s.curr_player_idx (PlayerState.new ""))
          m.working_row m.color n).2 = none
      ∧ ((m.is_from_center && is_start_token_available s) = true
          → (turnMid s m n).center Color.Start = some 1)
      ∧ b = is_round_over (turnFinal s m n)
      ∧ s2 = (if is_round_over (turnFinal s m n) then turnFinal s m n
              else { turnFinal s m n with curr_player_idx :=
                ((turnFinal s m n).curr_player_idx + 1)
                  % (turnFinal s m n).players.length }) := by
  unfold take_turn at h
  cases hv : m.check_validity with
  | some e => rw [hv] at h; simp at h
  | none =>
  rw [hv] at h
  simp only [] at h
  cases hnum : num_tiles_taken s m with
  | err e => rw [hnum] at h; simp at h
  | fatal => rw [hnum] at h; simp at h
  | ok n =>
  rw [hnum] at h
  simp only [] at h
  refine ⟨n, rfl, rfl, ?_⟩
  by_cases hn : (n == 0 : Bool)
  · rw [if_pos hn] at h; simp at h
  · rw [if_neg hn] at h
    refine ⟨by simpa using hn, ?_⟩
    by_cases hcur : s.curr_player_idx < s.players.length
    · rw [if_pos hcur] at h
      refine ⟨hcur, ?_⟩
      cases hadd : (add_tiles (s.players.getD s.curr_player_idx (PlayerState.new ""))
          m.working_row m.color n).2 with
      | some e => rw [hadd] at h; simp at h
      | none =>
      rw [hadd] at h
      simp only [] at h
      refine ⟨rfl, ?_⟩
      replace h : (if (m.is_from_center && is_start_token_available s) = true
            ∧ ¬(turnMid s m n).center Color.Start = some 1
          then (turnMid s m n, RustResult.fatal)
          else if is_round_over (turnFinal s m n)
            then (turnFinal s m n, RustResult.ok true)
            else ({ turnFinal s m n with
                curr_player_idx := ((turnFinal s m n).curr_player_idx + 1)
                  % (turnFinal s m n).players.length },
              RustResult.ok false)) = (s2, RustResult.ok b) := h
      by_cases htk : (m.is_from_center && is_start_token_available s) = true
          ∧ ¬(turnMid s m n).center Color.Start = some 1
      · rw [if_pos htk] at h; simp at h
      · rw [if_neg htk] at h
        have htok : (m.is_from_center && is_start_token_available s) = true
            → (turnMid s m n).center Color.Start = some 1 := by
          intro ht
          by_contra hc
          exact htk ⟨ht, hc⟩
        refine ⟨htok, ?_, ?_⟩
        · by_cases hro : is_round_over (turnFinal s m n)
          · rw [if_pos hro] at h
            have hb := congrArg Prod.snd h
            simp only [] at hb
            rw [← RustResult.ok.inj hb]
            exact hro.symm
          · rw [if_neg hro] at h
            have hb := congrArg Prod.snd h
            simp only [] at hb
            rw [← RustResult.ok.inj hb]
            simp only [Bool.not_eq_true] at hro
            exact hro.symm
        · by_cases hro : is_round_over (turnFinal s m n)
          · rw [if_pos hro] at h ⊢
            have hs := congrArg Prod.fst h
            simp only [] at hs
            exact hs.symm
          · rw [if_neg hro] at h ⊢
            have hs := congrArg Prod.fst h
            simp only [] at hs
            exact hs.symm
    · rw [if_neg hcur] at h; simp at h

theorem take_turn_ok_of_valid (s : GameState) (m : Move) (n : Nat)
    (hv : m.check_validity = none) (hnum : num_tiles_taken s m = .ok n) (hn : n ≠ 0)
    (hcur : s.curr_player_idx < s.players.length)
    (hadd : (add_tiles (s.players.getD s.curr_player_idx (PlayerState.new ""))
        m.working_row m.color n).2 = none)
    (htok : (m.is_from_center && is_start_token_available s) = true
        → (turnMid s m n).center Color.Start = some 1) :
    ∃ s2 b, take_turn s m = (s2, .ok b) := by
  unfold take_turn
  rw [hv, hnum]
  simp only []
  rw [if_neg (show ¬((n == 0 : Bool) = true) by simpa using hn)]
  rw [if_pos hcur, hadd]
  show ∃ s2 b, (if (m.is_from_center && is_start_token_available s) = true
        ∧ ¬(turnMid s m n).center Color.Start = some 1
      then (turnMid s m n, RustResult.fatal)
      else if is_round_over (turnFinal s m n)
        then (turnFinal s m n, RustResult.ok true)
        else ({ turnFinal s m n with
            curr_player_idx := ((turnFinal s m n).curr_player_idx + 1)
              % (turnFinal s m n).players.length },
          RustResult.ok false)) = (s2, RustResult.ok b)
  rw [if_neg (show ¬_ from fun hcc => hcc.2 (htok hcc.1))]
  by_cases hro : is_round_over (turnFinal s m n)
  · rw [if_pos hro]
    exact ⟨_, _, rfl⟩
  · rw [if_neg hro]
    exact ⟨_, _, rfl⟩

theorem check_validity_none (m : Move) (h : m.check_validity = none) :
    m.color.is_movable = true ∧ m.working_row ≤ 5 := by
  unfold Move.check_validity at h
  by_cases h1 : (!(m.color.is_movable) : Bool)
  · rw [if_pos h1] at h; cases h
  · rw [if_neg h1] at h
    by_cases h2 : m.working_row > 5
    · rw [if_pos h2] at h; cases h
    · exact ⟨by simpa using h1, by omega⟩

theorem num_tiles_taken_center (s : GameState) (m : Move) (n : Nat)
    (hc : m.is_from_center = true) (h : num_tiles_taken s m = .ok n) :
    s.center m.color = some n := by
  unfold num_tiles_taken at h
  rw [if_pos hc] at h
  cases hcc : s.center m.color with
  | some k =>
    rw [hcc] at h
    rw [RustResult.ok.inj h]
  | none => rw [hcc] at h; cases h

theorem num_tiles_taken_factory (s : GameState) (m : Move) (n : Nat)
    (hc : m.is_from_center = false) (h : num_tiles_taken s m = .ok n) :
    m.factory_idx - 1 < s.factories.length
    ∧ ((s.factories.getD (m.factory_idx - 1) []).filter (fun t => t == m.color)).length = n := by
  unfold num_tiles_taken at h
  rw [if_neg (by simp [hc])] at h
  by_cases hlt : m.factory_idx - 1 < s.factories.length
  · rw [if_pos hlt] at h
    exact ⟨hlt, RustResult.ok.inj h⟩
  · rw [if_neg hlt] at h
    cases h

theorem filter_split_length {α : Type} (l : List α) (p : α → Bool) :
    (l.filter p).length + (l.filter (fun a => !(p a))).length = l.length := by
  induction l with
  | nil => rfl
  | cons a rest ih =>
    cases hp : p a <;> simp [List.filter, hp] <;> omega

theorem send_trash_playerCount_start (p : PlayerState) (k : Nat) :
    playerCount (send_to_trash p Color.Start k) = playerCount p := by
  unfold playerCount send_to_trash
  simp only
  rw [countMovable_append, countMovable_replicate]
  have hsc : stagingCount { p with
      trashed_tiles := p.trashed_tiles ++ List.replicate k Color.Start } = stagingCount p := rfl
  rw [hsc]
  simp [Color.is_movable]

theorem send_trash_PWF (p : PlayerState) (c : Color) (k : Nat) (h : PWF p) :
    PWF (send_to_trash p c k) :=
  PWF_of_fields p _ rfl rfl rfl h

theorem players_set_wf (ps : List PlayerState) (i : Nat) (q : PlayerState)
    (h : ∀ p ∈ ps, PWF p) (hq : PWF q) : ∀ p ∈ ps.set i q, PWF p := by
  intro p hp
  rcases List.mem_or_eq_of_mem_set hp with hp | hp
  · exact h p hp
  · rw [hp]; exact hq

theorem movable_ne_start (c : Color) (h : c.is_movable = true) : c ≠ Color.Start := by
  intro hh
  rw [hh] at h
  simp [Color.is_movable] at h

theorem movable_ne_blank (c : Color) (h : c.is_movable = true) : c ≠ Color.Blank := by
  intro hh
  rw [hh] at h
  simp [Color.is_movable] at h

theorem add_tiles_trash_append (p : PlayerState) (row : Nat) (c : Color) (n : Nat) :
    ∃ k, (add_tiles p row c n).1.trashed_tiles = p.trashed_tiles ++ List.replicate k c := by
  cases ha : (add_tiles p row c n).2 with
  | some e => exact ⟨0, by rw [add_tiles_err_eq p row c n e ha]; simp⟩
  | none =>
    rcases add_tiles_ok_cases p row c n ha with ⟨_, heq⟩ | ⟨_, _, _, _, _, heq⟩
    · exact ⟨n, by rw [heq]; rfl⟩
    · exact ⟨_, by rw [heq]⟩

theorem trashOk_append (l : List Color) (c : Color) (k : Nat)
    (hl : l.all (fun x => x.is_movable || x == Color.Start) = true)
    (hc : c.is_movable = true ∨ c = Color.Start) :
    (l ++ List.replicate k c).all (fun x => x.is_movable || x == Color.Start) = true := by
  rw [List.all_append, Bool.and_eq_true]
  refine ⟨hl, ?_⟩
  rw [List.all_eq_true]
  intro x hx
  rw [List.eq_of_mem_replicate hx]
  rcases hc with hc | hc
  · simp [hc]
  · simp [hc]

theorem turnMid_inv (s : GameState) (m : Move) (n : Nat) (hwf : WF s)
    (hv : m.check_validity = none)
    (hnum : num_tiles_taken s m = .ok n)
    (hcur : s.curr_player_idx < s.players.length)
    (hadd : (add_tiles (s.players.getD s.curr_player_idx (PlayerState.new ""))
        m.working_row m.color n).2 = none) :
    totalTiles (turnMid s m n) = totalTiles s
    ∧ (turnMid s m n).tile_bag = s.tile_bag
    ∧ (turnMid s m n).box_lid = s.box_lid
    ∧ (turnMid s m n).start_player_idx = s.start_player_idx
    ∧ (turnMid s m n).curr_player_idx = s.curr_player_idx
    ∧ (turnMid s m n).players.length = s.players.length
    ∧ (∀ f ∈ (turnMid s m n).factories, f.all Color.is_movable = true)
    ∧ (∀ c k, (turnMid s m n).center c = some k → 1 ≤ k)
    ∧ (turnMid s m n).center Color.Blank = none
    ∧ (s.center Color.Start = some 1 → (turnMid s m n).center Color.Start = some 1)
    ∧ (∀ p ∈ (turnMid s m n).players, PWF p)
    ∧ (∀ p ∈ (turnMid s m n).players,
        p.trashed_tiles.all (fun c => c.is_movable || c == Color.Start) = true) := by
  have hmov := check_validity_none m hv
  have hwp0 : PWF (s.players.getD s.curr_player_idx (PlayerState.new "")) :=
    hwf.players_wf _ (getD_mem_of_lt _ _ _ hcur)
  have hpc := add_tiles_ok_playerCount _ m.working_row m.color n hwp0 hmov.1 hadd
  have hp1wf := add_tiles_ok_PWF _ m.working_row m.color n hwp0
    (movable_ne_start _ hmov.1) (movable_ne_blank _ hmov.1) hadd
  have hsum1 := sum_map_set s.players s.curr_player_idx
    (add_tiles (s.players.getD s.curr_player_idx (PlayerState.new ""))
      m.working_row m.color n).1
    (PlayerState.new "") playerCount hcur
  rw [hpc] at hsum1
  cases hc : m.is_from_center with
  | true =>
    have hcen : s.center m.color = some n := num_tiles_taken_center _ _ _ hc hnum
    have hmid : turnMid s m n = { s with
        players := s.players.set s.curr_player_idx
          (add_tiles (s.players.getD s.curr_player_idx (PlayerState.new ""))
            m.working_row m.color n).1,
        center := centerRemove s.center m.color } := by
      unfold turnMid commit_source
      rw [if_pos hc]
    have hcc := centerCount_remove_movable s.center m.color hmov.1
    rw [hcen] at hcc
    simp only [Option.getD_some] at hcc
    rw [hmid]
    refine ⟨?_, rfl, rfl, rfl, rfl, by simp, ?_, ?_, ?_, ?_, ?_, ?_⟩
    · unfold totalTiles
      simp only
      omega
    · intro f hf
      exact hwf.fac_movable f hf
    · intro c k hck
      simp only [] at hck
      unfold centerRemove at hck
      by_cases hcm : c = m.color
      · rw [if_pos hcm] at hck; cases hck
      · rw [if_neg hcm] at hck
        exact hwf.center_pos c k hck
    · show centerRemove s.center m.color Color.Blank = none
      unfold centerRemove
      rw [if_neg (fun hh => movable_ne_blank _ hmov.1 hh.symm)]
      exact hwf.center_blank
    · intro hst
      show centerRemove s.center m.color Color.Start = some 1
      unfold centerRemove
      rw [if_neg (fun hh => movable_ne_start _ hmov.1 hh.symm)]
      exact hst
    · exact players_set_wf _ _ _ hwf.players_wf hp1wf
    · intro p hp
      rcases List.mem_or_eq_of_mem_set hp with hp | hp
      · exact hwf.trash_ok p hp
      · rw [hp]
        obtain ⟨k, hk⟩ := add_tiles_trash_append _ m.working_row m.color n
        rw [hk]
        exact trashOk_append _ _ k (hwf.trash_ok _ (getD_mem_of_lt _ _ _ hcur))
          (Or.inl hmov.1)
  | false =>
    obtain ⟨hflt, hfn⟩ := num_tiles_taken_factory s m n hc hnum
    have hfmov : (s.factories.getD (m.factory_idx - 1) []).all Color.is_movable = true :=
      hwf.fac_movable _ (getD_mem_of_lt _ _ _ hflt)
    have hmid : turnMid s m n = { s with
        players := s.players.set s.curr_player_idx
          (add_tiles (s.players.getD s.curr_player_idx (PlayerState.new ""))
            m.working_row m.color n).1,
        center := spill s.center (s.factories.getD (m.factory_idx - 1) []) m.color,
        factories := s.factories.set (m.factory_idx - 1) [] } := by
      unfold turnMid commit_source
      rw [if_neg (by simp [hc])]
    have hcc := spill_count (s.factories.getD (m.factory_idx - 1) []) s.center m.color hfmov
    have hsplit := filter_split_length (s.factories.getD (m.factory_idx - 1) [])
      (fun t => t == m.color)
    rw [hfn] at hsplit
    have hflen : countMovable (s.factories.getD (m.factory_idx - 1) [])
        = (s.factories.getD (m.factory_idx - 1) []).length :=
      countMovable_eq_length _ hfmov
    have hfacsum := sum_map_set s.factories (m.factory_idx - 1) [] [] countMovable hflt
    have hstm : ∀ t ∈ s.factories.getD (m.factory_idx - 1) [], t ≠ Color.Start := by
      intro t ht
      exact movable_ne_start t ((List.all_eq_true.mp hfmov) t ht)
    have hbtm : ∀ t ∈ s.factories.getD (m.factory_idx - 1) [], t ≠ Color.Blank := by
      intro t ht
      exact movable_ne_blank t ((List.all_eq_true.mp hfmov) t ht)
    rw [hmid]
    refine ⟨?_, rfl, rfl, rfl, rfl, by simp, ?_, ?_, ?_, ?_, ?_, ?_⟩
    · unfold totalTiles
      simp only
      rw [hcc]
      have hz : countMovable ([] : List Color) = 0 := rfl
      rw [hz] at hfacsum
      omega
    · intro f hf
      rcases List.mem_or_eq_of_mem_set hf with hf | hf
      · exact hwf.fac_movable f hf
      · rw [hf]; rfl
    · exact spill_pos _ _ _ hwf.center_pos
    · show spill s.center (s.factories.getD (m.factory_idx - 1) []) m.color Color.Blank = none
      rw [spill_not_mem _ _ _ _ hbtm]
      exact hwf.center_blank
    · intro hst
      show spill s.center (s.factories.getD (m.factory_idx - 1) []) m.color Color.Start = some 1
      rw [spill_not_mem _ _ _ _ hstm]
      exact hst
    · exact players_set_wf _ _ _ hwf.players_wf hp1wf
    · intro p hp
      rcases List.mem_or_eq_of_mem_set hp with hp | hp
      · exact hwf.trash_ok p hp
      · rw [hp]
        obtain ⟨k, hk⟩ := add_tiles_trash_append _ m.working_row m.color n
        rw [hk]
        exact trashOk_append _ _ k (hwf.trash_ok _ (getD_mem_of_lt _ _ _ hcur))
          (Or.inl hmov.1)

theorem claim_token_inv (s : GameState) (hcur : s.curr_player_idx < s.players.length)
    (hwfp : ∀ p ∈ s.players, PWF p)
    (htro : ∀ p ∈ s.players,
      p.trashed_tiles.all (fun c => c.is_movable || c == Color.Start) = true)
    (hpos : ∀ c k, s.center c = some k → 1 ≤ k)
    (hblank : s.center Color.Blank = none) :
    totalTiles (claim_token s) = totalTiles s
    ∧ (claim_token s).tile_bag = s.tile_bag
    ∧ (claim_token s).box_lid = s.box_lid
    ∧ (claim_token s).factories = s.factories
    ∧ (claim_token s).curr_player_idx = s.curr_player_idx
    ∧ (claim_token s).players.length = s.players.length
    ∧ (claim_token s).start_player_idx = s.curr_player_idx
    ∧ (∀ c k, (claim_token s).center c = some k → 1 ≤ k)
    ∧ (claim_token s).center Color.Blank = none
    ∧ (∀ p ∈ (claim_token s).players, PWF p)
    ∧ (∀ p ∈ (claim_token s).players,
        p.trashed_tiles.all (fun c => c.is_movable || c == Color.Start) = true) := by
  have hsum := sum_map_set s.players s.curr_player_idx
    (send_to_trash (s.players.getD s.curr_player_idx (PlayerState.new "")) Color.Start 1)
    (PlayerState.new "") playerCount hcur
  rw [send_trash_playerCount_start] at hsum
  have hcc := centerCount_remove_start s.center
  refine ⟨?_, rfl, rfl, rfl, rfl, by simp [claim_token], rfl, ?_, ?_, ?_, ?_⟩
  · unfold totalTiles claim_token
    simp only
    omega
  · intro c k hck
    simp only [claim_token] at hck
    unfold centerRemove at hck
    by_cases hcs : c = Color.Start
    · rw [if_pos hcs] at hck; cases hck
    · rw [if_neg hcs] at hck
      exact hpos c k hck
  · show centerRemove s.center Color.Start Color.Blank = none
    unfold centerRemove
    rw [if_neg (by intro hh; cases hh)]
    exact hblank
  · exact players_set_wf _ _ _ hwfp
      (send_trash_PWF _ _ _ (hwfp _ (getD_mem_of_lt _ _ _ hcur)))
  · intro p hp
    rcases List.mem_or_eq_of_mem_set hp with hp | hp
    · exact htro p hp
    · rw [hp]
      show ((s.players.getD s.curr_player_idx (PlayerState.new "")).trashed_tiles
        ++ List.replicate 1 Color.Start).all (fun c => c.is_movable || c == Color.Start) = true
      exact trashOk_append _ _ 1 (htro _ (getD_mem_of_lt _ _ _ hcur)) (Or.inr rfl)

theorem totalTiles_curr (s : GameState) (k : Nat) :
    totalTiles { s with curr_player_idx := k } = totalTiles s := rfl

theorem WF_curr_update (s : GameState) (k : Nat) (h : WF s) :
    WF { s with curr_player_idx := k } :=
  ⟨h.bag_movable, h.lid_movable, h.fac_movable, h.center_pos, h.center_blank,
    h.center_start, h.players_wf, h.trash_ok⟩

theorem take_turn_ok_inv (s : GameState) (m : Move) (s2 : GameState) (b : Bool)
    (hwf : WF s) (h : take_turn s m = (s2, .ok b)) :
    WF s2 ∧ totalTiles s2 = totalTiles s := by
  obtain ⟨n, hv, hnum, hn, hcur, hadd, htok, hb, hs2⟩ := take_turn_ok_cases s m s2 b h
  obtain ⟨htt, hbag, hlid, hstart, hcurr, hlen, hfac, hpos, hblank, hstartp, hpwf, htro⟩ :=
    turnMid_inv s m n hwf hv hnum hcur hadd
  have hwfmid : WF (turnMid s m n) := by
    refine ⟨?_, ?_, hfac, hpos, hblank, ?_, hpwf, htro⟩
    · rw [hbag]; exact hwf.bag_movable
    · rw [hlid]; exact hwf.lid_movable
    · intro hse
      rw [hstart, hlen] at hse
      exact hstartp (hwf.center_start hse)
  have hfin : WF (turnFinal s m n) ∧ totalTiles (turnFinal s m n) = totalTiles s := by
    unfold turnFinal
    by_cases htk : (m.is_from_center && is_start_token_available s) = true
    · rw [if_pos htk]
      have hcur2 : (turnMid s m n).curr_player_idx < (turnMid s m n).players.length := by
        rw [hcurr, hlen]; exact hcur
      obtain ⟨ct, cb, cl, cf, cc, cpl, cst, cpos, cbl, cwf, ctro⟩ :=
        claim_token_inv (turnMid s m n) hcur2 hpwf htro hpos hblank
      refine ⟨⟨?_, ?_, ?_, cpos, cbl, ?_, cwf, ctro⟩, by rw [ct, htt]⟩
      · rw [cb, hbag]; exact hwf.bag_movable
      · rw [cl, hlid]; exact hwf.lid_movable
      · intro f hf
        rw [cf] at hf
        exact hfac f hf
      · intro hse
        rw [cst, cpl, hcurr, hlen] at hse
        exact absurd hse (by omega)
    · rw [if_neg htk]
      exact ⟨hwfmid, htt⟩
  rw [hs2]
  by_cases hro : is_round_over (turnFinal s m n)
  · rw [if_pos hro]
    exact hfin
  · rw [if_neg hro]
    exact ⟨WF_curr_update _ _ hfin.1, by rw [totalTiles_curr]; exact hfin.2⟩

/-! ### start_round and construction invariants -/

theorem start_round_eq (s : GameState) :
    start_round s = { s with
      curr_player_idx := s.start_player_idx,
      start_player_idx := s.players.length,
      center := centerInsert s.center Color.Start 1,
      factories := (fillFactories s.tile_bag s.factories).1,
      tile_bag := (fillFactories s.tile_bag s.factories).2.1,
      round_number := if (fillFactories s.tile_bag s.factories).2.2
        then s.round_number + 1 else s.round_number } := by
  unfold start_round
  simp only []
  by_cases hd : (fillFactories s.tile_bag s.factories).2.2
  · rw [if_pos hd, if_pos hd]
  · rw [if_neg hd, if_neg hd]

theorem centerInsert_start_pos (m : Color → Option Nat)
    (h : ∀ c k, m c = some k → 1 ≤ k) :
    ∀ c k, centerInsert m Color.Start 1 c = some k → 1 ≤ k := by
  intro c k hck
  unfold centerInsert at hck
  by_cases hcs : c = Color.Start
  · rw [if_pos hcs] at hck
    have := Option.some.inj hck
    omega
  · rw [if_neg hcs] at hck
    exact h c k hck

theorem start_round_inv (s : GameState) (hwf : WF s) :
    WF (start_round s) ∧ totalTiles (start_round s) = totalTiles s := by
  rw [start_round_eq]
  have hfc := fillFactories_count s.factories s.tile_bag
  have hfa := fillFactories_all s.factories s.tile_bag hwf.bag_movable hwf.fac_movable
  refine ⟨⟨hfa.1, hwf.lid_movable, hfa.2, ?_, ?_, ?_, hwf.players_wf, hwf.trash_ok⟩, ?_⟩
  · exact centerInsert_start_pos s.center hwf.center_pos
  · show centerInsert s.center Color.Start 1 Color.Blank = none
    unfold centerInsert
    rw [if_neg (by intro hh; cases hh)]
    exact hwf.center_blank
  · intro _
    show centerInsert s.center Color.Start 1 Color.Start = some 1
    unfold centerInsert
    rw [if_pos rfl]
  · unfold totalTiles
    simp only
    rw [centerCount_insert_start]
    omega

theorem repBag_all (k : Nat) : (repBag k).all Color.is_movable = true := by
  induction k with
  | zero => rfl
  | succ j ih =>
    show (ALL_COLORS ++ repBag j).all Color.is_movable = true
    rw [List.all_append, Bool.and_eq_true]
    exact ⟨by decide, ih⟩

theorem repBag_count (k : Nat) : countMovable (repBag k) = 5 * k := by
  induction k with
  | zero => rfl
  | succ j ih =>
    show countMovable (ALL_COLORS ++ repBag j) = 5 * (j + 1)
    rw [countMovable_append, ih]
    have h5 : countMovable ALL_COLORS = 5 := by decide
    omega

theorem getD_replicate_self {α : Type} (n i : Nat) (a : α) :
    (List.replicate n a).getD i a = a := by
  rw [List.getD_eq_getElem?_getD, List.getElem?_replicate]
  split <;> rfl

theorem playerCount_new (name : String) : playerCount (PlayerState.new name) = 0 := rfl

theorem PWF_new (name : String) : PWF (PlayerState.new name) := by
  refine ⟨rfl, ?_, rfl, rfl, ?_, ?_⟩
  · intro r hr
    rw [List.eq_of_mem_replicate hr]
    rfl
  · intro r _ _
    exact getD_replicate_self 5 r 0
  · intro r _
    show (List.replicate 5 Color.Blank).getD r Color.Blank ≠ Color.Start
    rw [getD_replicate_self]
    intro hc
    cases hc

theorem new_inv (names : List String) (rng : Nat → Nat) :
    WF (GameState.new names rng) ∧ totalTiles (GameState.new names rng) = 100 := by
  have hbag : (GameState.new names rng).tile_bag = shuffle (repBag 20) rng := rfl
  have hlid : (GameState.new names rng).box_lid = [] := rfl
  have hfacs : (GameState.new names rng).factories
      = List.replicate (2 * names.length + 1) [] := rfl
  have hcen : (GameState.new names rng).center
      = centerInsert emptyCenter Color.Start 1 := rfl
  have hpl : (GameState.new names rng).players = names.map PlayerState.new := rfl
  refine ⟨⟨?_, ?_, ?_, ?_, ?_, ?_, ?_, ?_⟩, ?_⟩
  · rw [hbag]
    exact shuffle_all _ rng _ (repBag_all 20)
  · rw [hlid]
    rfl
  · rw [hfacs]
    intro f hf
    rw [List.eq_of_mem_replicate hf]
    rfl
  · rw [hcen]
    exact centerInsert_start_pos emptyCenter (fun c k hck => by cases hck)
  · rw [hcen]
    show centerInsert emptyCenter Color.Start 1 Color.Blank = none
    unfold centerInsert
    rw [if_neg (by intro hh; cases hh)]
    rfl
  · intro _
    rw [hcen]
    show centerInsert emptyCenter Color.Start 1 Color.Start = some 1
    unfold centerInsert
    rw [if_pos rfl]
  · rw [hpl]
    intro p hp
    simp only [List.mem_map] at hp
    obtain ⟨name, _, hname⟩ := hp
    rw [← hname]
    exact PWF_new name
  · rw [hpl]
    intro p hp
    simp only [List.mem_map] at hp
    obtain ⟨name, _, hname⟩ := hp
    rw [← hname]
    rfl
  · unfold totalTiles
    rw [hbag, hlid, hfacs, hcen, hpl]
    rw [shuffle_countMovable _ _ (repBag_all 20), repBag_count]
    have hlid0 : countMovable ([] : List Color) = 0 := rfl
    have hcen0 : centerCount (centerInsert emptyCenter Color.Start 1) = 0 := by decide
    have hfac0 : ((List.replicate (2 * names.length + 1) ([] : List Color)).map
        countMovable).sum = 0 := by
      apply List.sum_eq_zero
      intro x hx
      simp only [List.mem_map] at hx
      obtain ⟨f, hf, hfx⟩ := hx
      rw [← hfx, List.eq_of_mem_replicate hf]
      rfl
    have hpl0 : ((names.map PlayerState.new).map playerCount).sum = 0 := by
      apply List.sum_eq_zero
      intro x hx
      simp only [List.map_map, List.mem_map] at hx
      obtain ⟨name, _, hname⟩ := hx
      rw [← hname]
      rfl
    rw [hlid0, hcen0, hfac0, hpl0]

theorem finishPlayersGo_inv (ps : List PlayerState) : ∀ lid : List Color,
    (∀ p ∈ ps, PWF p) →
    (∀ p ∈ ps, p.trashed_tiles.all (fun c => c.is_movable || c == Color.Start) = true) →
    lid.all Color.is_movable = true →
    (finishPlayersGo ps lid).2.2 = none →
    ((finishPlayersGo ps lid).1.map playerCount).sum
        + countMovable (finishPlayersGo ps lid).2.1
      = (ps.map playerCount).sum + countMovable lid
    ∧ (∀ p ∈ (finishPlayersGo ps lid).1, PWF p)
    ∧ (∀ p ∈ (finishPlayersGo ps lid).1,
        p.trashed_tiles.all (fun c => c.is_movable || c == Color.Start) = true)
    ∧ (finishPlayersGo ps lid).2.1.all Color.is_movable = true
    ∧ (finishPlayersGo ps lid).1.length = ps.length := by
  induction ps with
  | nil =>
    intro lid _ _ hlid _
    exact ⟨rfl, by simp [finishPlayersGo], by simp [finishPlayersGo], hlid, rfl⟩
  | cons p rest ih =>
    intro lid hwf htro hlid hok
    unfold finishPlayersGo at hok ⊢
    rcases hsr : score_round p with ⟨p1, res⟩
    rw [hsr] at hok
    cases res with
    | error e => simp at hok
    | ok ret =>
      simp only [] at hok ⊢
      have hp := hwf p (by simp)
      have hptro := htro p (by simp)
      obtain ⟨hcnt, hpwf1, hretm, htr1⟩ := score_round_ok_count p p1 ret hp hptro hsr
      have hlid2 : (lid ++ ret).all Color.is_movable = true := by
        rw [List.all_append, Bool.and_eq_true]
        exact ⟨hlid, hretm⟩
      obtain ⟨rsum, rwf, rtro, rlid, rlen⟩ := ih (lid ++ ret)
        (fun q hq => hwf q (by simp [hq]))
        (fun q hq => htro q (by simp [hq])) hlid2 hok
      refine ⟨?_, ?_, ?_, rlid, ?_⟩
      · simp only [List.map_cons, List.sum_cons]
        rw [countMovable_append] at rsum
        omega
      · intro q hq
        rcases List.mem_cons.mp hq with rfl | hq
        · exact hpwf1
        · exact rwf q hq
      · intro q hq
        rcases List.mem_cons.mp hq with rfl | hq
        · rw [htr1]; rfl
        · exact rtro q hq
      · simp only [List.length_cons, rlen]

theorem sum_playerCount_bonuses (ps : List PlayerState) :
    ((ps.map score_bonuses).map playerCount).sum = (ps.map playerCount).sum := by
  induction ps with
  | nil => rfl
  | cons p rest ih =>
    simp only [List.map_cons, List.sum_cons, ih]
    rfl

theorem finish_round_ok_inv (s : GameState) (r : Nat → Nat) (s2 : GameState) (b : Bool)
    (hwf : WF s) (h : finish_round s r = (s2, .ok b)) :
    WF s2 ∧ totalTiles s2 = totalTiles s := by
  unfold finish_round at h
  by_cases hro : (!(is_round_over s) : Bool)
  · rw [if_pos hro] at h
    simp at h
  · rw [if_neg hro] at h
    rcases hfp : finishPlayersGo s.players s.box_lid with ⟨ps1, lid1, err⟩
    have hinv := finishPlayersGo_inv s.players s.box_lid hwf.players_wf hwf.trash_ok
      hwf.lid_movable
    rw [hfp] at hinv h
    cases err with
    | some e => simp at h
    | none =>
    simp only [] at h hinv
    obtain ⟨hsum, hwfp1, htro1, hlid1, hlen1⟩ := hinv trivial
    replace h : (if is_finished { s with players := ps1, box_lid := lid1 }
        then ({ s with players := ps1.map score_bonuses, box_lid := lid1 }, Except.ok true)
        else if s.tile_bag.length < 4 * s.factories.length
          then ({ s with
              players := ps1,
              tile_bag := shuffle (s.tile_bag ++ lid1) r,
              box_lid := [] }, Except.ok false)
          else ({ s with players := ps1, box_lid := lid1 }, Except.ok false))
        = (s2, Except.ok b) := h
    by_cases hfin : is_finished { s with players := ps1, box_lid := lid1 }
    · rw [if_pos hfin] at h
      have hs2 := (congrArg Prod.fst h).symm
      simp only [] at hs2
      rw [hs2]
      refine ⟨⟨hwf.bag_movable, hlid1, hwf.fac_movable, hwf.center_pos, hwf.center_blank,
        ?_, ?_, ?_⟩, ?_⟩
      · intro hse
        simp only [List.length_map, hlen1] at hse
        exact hwf.center_start hse
      · intro p hp
        simp only [List.mem_map] at hp
        obtain ⟨q, hq, hqp⟩ := hp
        rw [← hqp]
        exact PWF_of_fields q _ rfl rfl rfl (hwfp1 q hq)
      · intro p hp
        simp only [List.mem_map] at hp
        obtain ⟨q, hq, hqp⟩ := hp
        rw [← hqp]
        exact htro1 q hq
      · unfold totalTiles
        simp only
        rw [sum_playerCount_bonuses]
        omega
    · rw [if_neg hfin] at h
      by_cases hshort : s.tile_bag.length < 4 * s.factories.length
      · rw [if_pos hshort] at h
        have hs2 := (congrArg Prod.fst h).symm
        simp only [] at hs2
        rw [hs2]
        have hba : (s.tile_bag ++ lid1).all Color.is_movable = true := by
          rw [List.all_append, Bool.and_eq_true]
          exact ⟨hwf.bag_movable, hlid1⟩
        refine ⟨⟨shuffle_all _ _ _ hba, rfl, hwf.fac_movable, hwf.center_pos,
          hwf.center_blank, ?_, hwfp1, htro1⟩, ?_⟩
        · intro hse
          simp only [hlen1] at hse
          exact hwf.center_start hse
        · unfold totalTiles
          simp only
          rw [shuffle_countMovable _ _ hba, countMovable_append]
          have hz : countMovable ([] : List Color) = 0 := rfl
          rw [hz]
          omega
      · rw [if_neg hshort] at h
        have hs2 := (congrArg Prod.fst h).symm
        simp only [] at hs2
        rw [hs2]
        refine ⟨⟨hwf.bag_movable, hlid1, hwf.fac_movable, hwf.center_pos, hwf.center_blank,
          ?_, hwfp1, htro1⟩, ?_⟩
        · intro hse
          simp only [hlen1] at hse
          exact hwf.center_start hse
        · unfold totalTiles
          simp only
          omega

theorem reachable_inv (s : GameState) (h : Reachable s) :
    WF s ∧ totalTiles s = 100 := by
  induction h with
  | init names rng _ => exact new_inv names rng
  | startr _ ih =>
    obtain ⟨hwf, htot⟩ := ih
    obtain ⟨hwf2, htot2⟩ := start_round_inv _ hwf
    exact ⟨hwf2, by rw [htot2, htot]⟩
  | turn _ ht ih =>
    obtain ⟨hwf, htot⟩ := ih
    obtain ⟨hwf2, htot2⟩ := take_turn_ok_inv _ _ _ _ hwf ht
    exact ⟨hwf2, by rw [htot2, htot]⟩
  | finishr _ hf ih =>
    obtain ⟨hwf, htot⟩ := ih
    obtain ⟨hwf2, htot2⟩ := finish_round_ok_inv _ _ _ _ hwf hf
    exact ⟨hwf2, by rw [htot2, htot]⟩

/-! ### Claim theorems -/

set_option allowUnsafeReducibility true in
attribute [semireducible] shuffle

/-- C1: Tile conservation — for every game state reachable from
`GameState::new` via any sequence of `start_round`, successful `take_turn`
and `finish_round` calls, the total number of movable-color tiles in the
draw pile, discard pile, offers, center pool counts, and every player's
staging rows, grid and trash equals 100 (the start token and the blank
sentinel are not counted). -/
theorem spec_c1_tile_conservation (s : GameState) (h : Reachable s) :
    totalTiles s = 100 :=
  (reachable_inv s h).2

theorem spec_c1_tile_conservation_witness :
    totalTiles (GameState.new ["alice", "bob"] (fun k => k)) = 100 :=
  spec_c1_tile_conservation _ (Reachable.init ["alice", "bob"] (fun k => k) (by decide))

/-- Spec-side definition: contiguous occupied run to the left of `col`. -/
def specRunLeft (grid : List (List Bool)) (row col : Nat) : Nat :=
  ((((grid.getD row []).take col).reverse).takeWhile (fun x => x)).length

/-- Spec-side definition: contiguous occupied run to the right of `col`. -/
def specRunRight (grid : List (List Bool)) (row col : Nat) : Nat :=
  (((grid.getD row []).drop (col + 1)).takeWhile (fun x => x)).length

/-- Spec-side definition: contiguous occupied run above `row`. -/
def specRunUp (grid : List (List Bool)) (row col : Nat) : Nat :=
  (((grid.take row).reverse).takeWhile (fun r => r.getD col false)).length

/-- Spec-side definition: contiguous occupied run below `row`. -/
def specRunDown (grid : List (List Bool)) (row col : Nat) : Nat :=
  ((grid.drop (row + 1)).takeWhile (fun r => r.getD col false)).length

/-- Spec-side `horiz`: 1 plus the runs to the right and left. -/
def specHoriz (grid : List (List Bool)) (row col : Nat) : Nat :=
  1 + specRunRight grid row col + specRunLeft grid row col

/-- Spec-side `vert`: 1 plus the runs below and above. -/
def specVert (grid : List (List Bool)) (row col : Nat) : Nat :=
  1 + specRunDown grid row col + specRunUp grid row col

theorem ite_beq_one_sub (a b : Nat) :
    (if (a == 1 || b == 1) = true then ((a + b : Nat) : Int) - 1 else ((a + b : Nat) : Int))
    = ((a + b : Nat) : Int) - (if a = 1 ∨ b = 1 then 1 else 0) := by
  by_cases h : a = 1 ∨ b = 1
  · rw [if_pos h, if_pos (by rcases h with h | h <;> simp [h])]
  · rw [if_neg h, if_neg (by push_neg at h; simp [h.1, h.2])]
    omega

/-- All-false 5×5 grid used in the adjacency-scoring examples. -/
def c2gridBase : List (List Bool) := List.replicate 5 (List.replicate 5 false)

/-- Occupy one cell of a grid. -/
def gridSet (g : List (List Bool)) (r c : Nat) : List (List Bool) :=
  g.set r ((g.getD r []).set c true)

/-- Grid with the single tile (2,2). -/
def c2grid1 : List (List Bool) := gridSet c2gridBase 2 2

/-- Grid with tiles (2,2), (2,4). -/
def c2grid2 : List (List Bool) := gridSet c2grid1 2 4

/-- Grid with tiles (2,2), (2,4) and the gap (2,3) filled. -/
def c2grid3 : List (List Bool) := gridSet c2grid2 2 3

/-- Grid additionally holding (1,3). -/
def c2grid4 : List (List Bool) := gridSet c2grid3 1 3

/-- Grid additionally holding (3,3): the cell (2,3) now has all four
neighbors occupied. -/
def c2grid5 : List (List Bool) := gridSet c2grid4 3 3

/-- C2: Adjacency scoring — for every grid and occupied cell, the score of
the placement equals `horiz + vert` (runs computed after placement), minus
1 when either run has length exactly 1; in particular an isolated tile
scores 1, completing a horizontal run of 3 with no vertical neighbors
scores 3, a vertical run of 2 with horizontal run 1 scores 2, and a cell
with all four neighbors occupied scores 6. -/
theorem spec_c2_adjacency_scoring :
    (∀ (grid : List (List Bool)) (row col : Nat), row < 5 → col < 5 →
      (grid.getD row []).getD col false = true →
      score_tile grid row col
        = ((specHoriz grid row col + specVert grid row col : Nat) : Int)
          - (if specHoriz grid row col = 1 ∨ specVert grid row col = 1 then 1 else 0))
    ∧ score_tile c2grid1 2 2 = 1
    ∧ score_tile c2grid2 2 4 = 1
    ∧ score_tile c2grid3 2 3 = 3
    ∧ score_tile c2grid4 1 3 = 2
    ∧ score_tile c2grid5 2 3 = 6 := by
  refine ⟨?_, by decide, by decide, by decide, by decide, by decide⟩
  intro grid row col _ _ _
  unfold score_tile specHoriz specVert specRunLeft specRunRight specRunUp specRunDown
  simp only []
  exact ite_beq_one_sub _ _

theorem spec_c2_adjacency_scoring_witness :
    2 < 5 ∧ 2 < 5 ∧ (c2grid1.getD 2 []).getD 2 false = true
    ∧ score_tile c2grid1 2 2
      = ((specHoriz c2grid1 2 2 + specVert c2grid1 2 2 : Nat) : Int)
        - (if specHoriz c2grid1 2 2 = 1 ∨ specVert c2grid1 2 2 = 1 then 1 else 0) :=
  ⟨by decide, by decide, by decide,
    spec_c2_adjacency_scoring.1 c2grid1 2 2 (by decide) (by decide) (by decide)⟩

deriving instance DecidableEq for GameState

theorem turnMid_curr (s : GameState) (m : Move) (n : Nat) :
    (turnMid s m n).curr_player_idx = s.curr_player_idx := by
  unfold turnMid commit_source
  split_ifs <;> rfl

theorem turnFinal_curr (s : GameState) (m : Move) (n : Nat) :
    (turnFinal s m n).curr_player_idx = s.curr_player_idx := by
  unfold turnFinal
  split_ifs
  · show (claim_token (turnMid s m n)).curr_player_idx = _
    have hproj : (claim_token (turnMid s m n)).curr_player_idx
        = (turnMid s m n).curr_player_idx := rfl
    rw [hproj]
    exact turnMid_curr s m n
  · exact turnMid_curr s m n

theorem turnMid_players_len (s : GameState) (m : Move) (n : Nat) :
    (turnMid s m n).players.length = s.players.length := by
  unfold turnMid commit_source
  split_ifs <;> simp

theorem turnFinal_players_len (s : GameState) (m : Move) (n : Nat) :
    (turnFinal s m n).players.length = s.players.length := by
  unfold turnFinal
  split_ifs
  · show (claim_token (turnMid s m n)).players.length = _
    have hproj : (claim_token (turnMid s m n)).players.length
        = ((turnMid s m n).players.set (turnMid s m n).curr_player_idx
            (send_to_trash ((turnMid s m n).players.getD (turnMid s m n).curr_player_idx
              (PlayerState.new "")) Color.Start 1)).length := rfl
    rw [hproj, List.length_set]
    exact turnMid_players_len s m n
  · exact turnMid_players_len s m n

theorem is_round_over_curr (s : GameState) (k : Nat) :
    is_round_over { s with curr_player_idx := k } = is_round_over s := rfl

theorem is_round_over_center_none (s : GameState) (h : is_round_over s = true) (c : Color) :
    s.center c = none := by
  unfold is_round_over at h
  rw [Bool.and_eq_true, List.all_eq_true] at h
  have hc := h.1 c (by cases c <;> simp [COLOR_LIST])
  simpa using hc

/-- C3: Round-over detection — a successful `take_turn` returns `true` iff,
after the draft is committed, every offer is empty and the center holds no
entries at all (including no start token); a center still holding an
unclaimed start token is not empty, so `take_turn` returns `false` and
advances the current player index circularly; the index is not advanced
when `true` is returned. -/
theorem spec_c3_round_over (s : GameState) (m : Move) (s2 : GameState) (b : Bool)
    (h : take_turn s m = (s2, .ok b)) :
    (b = true ↔ is_round_over s2 = true)
    ∧ ((s2.center Color.Start).isSome = true → b = false)
    ∧ (b = true → s2.curr_player_idx = s.curr_player_idx)
    ∧ (b = false → s2.curr_player_idx = (s.curr_player_idx + 1) % s.players.length) := by
  obtain ⟨n, _, _, _, _, _, _, hb, hs2⟩ := take_turn_ok_cases s m s2 b h
  have hiff : b = true ↔ is_round_over s2 = true := by
    constructor
    · intro hbt
      rw [hbt] at hb
      rw [hs2, if_pos hb.symm]
      exact hb.symm
    · intro hro
      by_contra hbf
      rw [Bool.not_eq_true] at hbf
      rw [hbf] at hb
      rw [hs2] at hro
      rw [if_neg (by rw [← hb]; simp)] at hro
      rw [is_round_over_curr] at hro
      rw [← hb] at hro
      cases hro
  refine ⟨hiff, ?_, ?_, ?_⟩
  · intro hsome
    by_contra hbf
    rw [Bool.not_eq_false] at hbf
    have hro := hiff.mp hbf
    have := is_round_over_center_none s2 hro Color.Start
    rw [this] at hsome
    cases hsome
  · intro hbt
    rw [hbt] at hb
    rw [hs2, if_pos hb.symm]
    exact turnFinal_curr s m n
  · intro hbf
    rw [hbf] at hb
    rw [hs2, if_neg (by rw [← hb]; simp)]
    have hproj : ({ turnFinal s m n with
        curr_player_idx := ((turnFinal s m n).curr_player_idx + 1)
          % (turnFinal s m n).players.length } : GameState).curr_player_idx
        = ((turnFinal s m n).curr_player_idx + 1) % (turnFinal s m n).players.length := rfl
    rw [hproj, turnFinal_curr, turnFinal_players_len]

def exC3 : GameState where
  tile_bag := []
  box_lid := []
  factories := [[Color.Blue]]
  center := centerInsert (fun _ => none) Color.Start 1
  players := [PlayerState.new "a"]
  start_player_idx := 1
  curr_player_idx := 0
  round_number := 1

def mC3 : Move where
  factory_idx := 1
  color := Color.Blue
  working_row := 5

theorem spec_c3_round_over_witness :
    (false = true ↔ is_round_over (take_turn exC3 mC3).1 = true)
    ∧ (((take_turn exC3 mC3).1.center Color.Start).isSome = true → false = false)
    ∧ (false = true → (take_turn exC3 mC3).1.curr_player_idx = exC3.curr_player_idx)
    ∧ (false = false → (take_turn exC3 mC3).1.curr_player_idx
        = (exC3.curr_player_idx + 1) % exC3.players.length) :=
  spec_c3_round_over exC3 mC3 (take_turn exC3 mC3).1 false (by decide)

theorem take_turn_err_eq (s : GameState) (m : Move) (s2 : GameState) (e : String)
    (h : take_turn s m = (s2, .err e)) : s2 = s := by
  unfold take_turn at h
  cases hv : m.check_validity with
  | some e2 =>
    rw [hv] at h
    simp only [Prod.mk.injEq] at h
    exact h.1.symm
  | none =>
  rw [hv] at h
  simp only [] at h
  cases hnum : num_tiles_taken s m with
  | err e2 =>
    rw [hnum] at h
    simp only [Prod.mk.injEq] at h
    exact h.1.symm
  | fatal => rw [hnum] at h; simp at h
  | ok n =>
  rw [hnum] at h
  simp only [] at h
  by_cases hn : (n == 0 : Bool)
  · rw [if_pos hn] at h
    simp only [Prod.mk.injEq] at h
    exact h.1.symm
  · rw [if_neg hn] at h
    by_cases hcur : s.curr_player_idx < s.players.length
    · rw [if_pos hcur] at h
      cases hadd : (add_tiles (s.players.getD s.curr_player_idx (PlayerState.new ""))
          m.working_row m.color n).2 with
      | some e2 =>
        rw [hadd] at h
        simp only [Prod.mk.injEq] at h
        have hp1 := add_tiles_err_eq (s.players.getD s.curr_player_idx (PlayerState.new ""))
          m.working_row m.color n e2 hadd
        rw [hp1, set_getD_self s.players s.curr_player_idx (PlayerState.new "") hcur] at h
        exact h.1.symm
      | none =>
        rw [hadd] at h
        simp only [] at h
        exfalso
        replace h : (if (m.is_from_center && is_start_token_available s) = true
              ∧ ¬(turnMid s m n).center Color.Start = some 1
            then (turnMid s m n, RustResult.fatal)
            else if is_round_over (turnFinal s m n)
              then (turnFinal s m n, RustResult.ok true)
              else ({ turnFinal s m n with
                  curr_player_idx := ((turnFinal s m n).curr_player_idx + 1)
                    % (turnFinal s m n).players.length },
                RustResult.ok false)) = (s2, RustResult.err e) := h
        by_cases htk : (m.is_from_center && is_start_token_available s) = true
            ∧ ¬(turnMid s m n).center Color.Start = some 1
        · rw [if_pos htk] at h; simp at h
        · rw [if_neg htk] at h
          by_cases hro : is_round_over (turnFinal s m n)
          · rw [if_pos hro] at h; simp at h
          · rw [if_neg hro] at h; simp at h
    · rw [if_neg hcur] at h; simp at h

/-- C4: Error atomicity — whenever `add_tiles` or `take_turn` returns an
error, the player board (respectively the whole game state) is returned
exactly equal to its pre-call value: no partial application survives a
rejected call. -/
theorem spec_c4_error_atomicity :
    (∀ (p : PlayerState) (row : Nat) (c : Color) (n : Nat) (e : String),
        (add_tiles p row c n).2 = some e → (add_tiles p row c n).1 = p)
    ∧ (∀ (s s2 : GameState) (m : Move) (e : String),
        take_turn s m = (s2, RustResult.err e) → s2 = s) :=
  ⟨fun p row c n e h => add_tiles_err_eq p row c n e h,
   fun s s2 m e h => take_turn_err_eq s m s2 e h⟩

theorem spec_c4_error_atomicity_witness :
    (add_tiles (PlayerState.new "d") 0 Color.Start 1).1 = PlayerState.new "d"
    ∧ (take_turn exC3 (Move.mk 0 Color.Blue 1)).1 = exC3 :=
  ⟨spec_c4_error_atomicity.1 (PlayerState.new "d") 0 Color.Start 1
      "the start tile can only be trashed" (by decide),
   spec_c4_error_atomicity.2 exC3 (take_turn exC3 (Move.mk 0 Color.Blue 1)).1
      (Move.mk 0 Color.Blue 1) "color is not in the center" (by decide)⟩

def exC5 : GameState where
  tile_bag := [Color.Blue, Color.Orange]
  box_lid := [Color.Red]
  factories := [[], [], []]
  center := fun _ => none
  players := [PlayerState.new "a"]
  start_player_idx := 0
  curr_player_idx := 0
  round_number := 1

/-- C5: Determinism — refuted by the mid-game reshuffle.  `finish_round`
draws its reshuffle randomness from a freshly seeded ambient RNG
(`rand::rng()` in the source), not from the caller-supplied source used by
`GameState::new`.  Two runs from the identical state `exC5`, with the
identical (empty) move history, both succeed yet end with different draw
piles when the ambient stream differs, so the serialized states are not
byte-identical after the call. -/
theorem spec_c5_determinism_bug :
    (finish_round exC5 (fun _ => 0)).2 = Except.ok false
    ∧ (finish_round exC5 (fun _ => 1)).2 = Except.ok false
    ∧ (finish_round exC5 (fun _ => 0)).1.tile_bag
      ≠ (finish_round exC5 (fun _ => 1)).1.tile_bag :=
  ⟨rfl, rfl, by decide⟩

def exC6 : PlayerState where
  display_name := "c"
  played_tiles := List.replicate 5 (List.replicate 5 false)
  working_count := [1, 0, 0, 0, 0]
  working_color := [Color.Blue, Color.Blank, Color.Blank, Color.Blank, Color.Blank]
  trashed_tiles := List.replicate 4 Color.Orange
  scores := [2]

/-- C6: Score floor — a successful `score_round` appends exactly one ledger
entry: the raw round delta (newly scored grid tiles plus positional trash
penalties) unless the pre-call running total plus that delta is negative,
in which case the negation of the running total is recorded; consequently
the running total is never negative on any board reachable by the public
operations; and on the example board (total 2, raw delta −5) the recorded
delta is −2 and the new total is exactly 0. -/
theorem spec_c6_score_floor :
    (∀ (p q : PlayerState) (ret : List Color), score_round p = (q, .ok ret) →
        q.scores = p.scores
          ++ [if p.score + rawRoundDelta p < 0 then -p.score else rawRoundDelta p])
    ∧ (∀ p : PlayerState, PReachable p → 0 ≤ p.score)
    ∧ rawRoundDelta exC6 = -5
    ∧ (score_round exC6).1.scores = [2, -2]
    ∧ (score_round exC6).1.score = 0 :=
  ⟨score_round_ok_spec, preachable_score_nonneg, by decide, by decide, by decide⟩

theorem spec_c6_score_floor_witness :
    ((score_round exC6).1.scores = exC6.scores
      ++ [if exC6.score + rawRoundDelta exC6 < 0 then -exC6.score else rawRoundDelta exC6])
    ∧ 0 ≤ (PlayerState.new "w").score :=
  ⟨spec_c6_score_floor.1 exC6 (score_round exC6).1
      (List.replicate 4 Color.Orange) rfl,
   spec_c6_score_floor.2.1 (PlayerState.new "w") (PReachable.init "w")⟩

/-- C7 counterexample: drafting from offer index 5 when only one offer
exists makes `num_tiles_taken` abort with an out-of-bounds panic
(`fatal`), not return an error value. -/
theorem spec_c7_counterexample :
    num_tiles_taken exC3 (Move.mk 5 Color.Blue 0) = RustResult.fatal := by decide

/-- C7 (amended): for a pool draft, `num_tiles_taken` returns the pool's
count for the move's color when present and an error when the color is
absent; for an offer draft it returns the matching-color count of the
named offer when the offer index is in range, but an offer index beyond
the number of offers causes a panic (out-of-bounds indexing), not an
error return. -/
theorem spec_c7_num_tiles_taken (s : GameState) (m : Move) :
    (m.is_from_center = true →
        (∀ n, s.center m.color = some n → num_tiles_taken s m = .ok n)
        ∧ (s.center m.color = none → ∃ e, num_tiles_taken s m = .err e))
    ∧ (m.is_from_center = false →
        (m.factory_idx - 1 < s.factories.length →
          num_tiles_taken s m = .ok (((s.factories.getD (m.factory_idx - 1) []).filter
            (fun t => t == m.color)).length))
        ∧ (¬ m.factory_idx - 1 < s.factories.length →
          num_tiles_taken s m = .fatal)) := by
  unfold num_tiles_taken
  constructor
  · intro hc
    rw [hc, if_pos rfl]
    constructor
    · intro n hn
      rw [hn]
    · intro hn
      rw [hn]
      exact ⟨_, rfl⟩
  · intro hc
    rw [hc]
    rw [if_neg (by simp)]
    constructor
    · intro hlt
      rw [if_pos hlt]
    · intro hlt
      rw [if_neg hlt]

theorem spec_c7_num_tiles_taken_witness :
    num_tiles_taken exC3 (Move.mk 0 Color.Start 0) = .ok 1
    ∧ num_tiles_taken exC3 (Move.mk 1 Color.Blue 0) = .ok 1
    ∧ num_tiles_taken exC3 (Move.mk 5 Color.Blue 0) = .fatal :=
  ⟨((spec_c7_num_tiles_taken exC3 (Move.mk 0 Color.Start 0)).1 (by decide)).1 1 (by decide),
   ((spec_c7_num_tiles_taken exC3 (Move.mk 1 Color.Blue 0)).2 (by decide)).1 (by decide),
   ((spec_c7_num_tiles_taken exC3 (Move.mk 5 Color.Blue 0)).2 (by decide)).2 (by decide)⟩

def exC8 : GameState where
  tile_bag := []
  box_lid := []
  factories := [[]]
  center := fun _ => none
  players := [PlayerState.new "a"]
  start_player_idx := 1
  curr_player_idx := 0
  round_number := 3

/-- C8 counterexample: with an exhausted draw pile, `start_round` returns
early and leaves the round counter unchanged instead of incrementing it. -/
theorem spec_c8_counterexample :
    (start_round exC8).round_number ≠ exC8.round_number + 1 := by decide

/-- C8 (amended): every call to `start_round` sets the current player index
to the first-player marker, resets the marker to its sentinel (the player
count), places one start token into the pool, and fills offers from the
draw pile in order without reshuffling; when the pile holds at least
4 × (number of offers) tiles, every offer gains exactly 4 tiles and the
round counter is incremented by 1, but when the pile is too short the fill
stops early and the round counter is left unchanged (the source's early
`return` skips the increment). -/
theorem spec_c8_start_round (s : GameState) :
    (start_round s).curr_player_idx = s.start_player_idx
    ∧ (start_round s).start_player_idx = s.players.length
    ∧ (start_round s).center Color.Start = some 1
    ∧ (start_round s).factories.length = s.factories.length
    ∧ (4 * s.factories.length ≤ s.tile_bag.length →
        (start_round s).round_number = s.round_number + 1
        ∧ ∀ i < s.factories.length,
            ((start_round s).factories.getD i []).length
              = (s.factories.getD i []).length + 4)
    ∧ (s.tile_bag.length < 4 * s.factories.length →
        (start_round s).round_number = s.round_number) := by
  rw [start_round_eq]
  refine ⟨rfl, rfl, ?_, ?_, ?_, ?_⟩
  · show centerInsert s.center Color.Start 1 Color.Start = some 1
    unfold centerInsert
    rw [if_pos rfl]
  · show (fillFactories s.tile_bag s.factories).1.length = s.factories.length
    exact fillFactories_length s.factories s.tile_bag
  · intro h
    have hdone : (fillFactories s.tile_bag s.factories).2.2 = true :=
      (fillFactories_done_iff s.factories s.tile_bag).mpr h
    constructor
    · show (if (fillFactories s.tile_bag s.factories).2.2
          then s.round_number + 1 else s.round_number) = s.round_number + 1
      rw [hdone, if_pos rfl]
    · intro i hi
      exact fillFactories_done_lengths s.factories s.tile_bag hdone i hi
  · intro h
    have hdone : (fillFactories s.tile_bag s.factories).2.2 = false := by
      rw [← Bool.not_eq_true]
      intro hc
      have := (fillFactories_done_iff s.factories s.tile_bag).mp hc
      omega
    show (if (fillFactories s.tile_bag s.factories).2.2
        then s.round_number + 1 else s.round_number) = s.round_number
    rw [hdone, if_neg (by simp)]

theorem spec_c8_start_round_witness :
    4 * exC8.factories.length ≤ exC8.tile_bag.length + 4
    ∧ exC8.tile_bag.length < 4 * exC8.factories.length
    ∧ (start_round exC8).curr_player_idx = exC8.start_player_idx
    ∧ (start_round exC8).center Color.Start = some 1
    ∧ (start_round exC8).round_number = exC8.round_number :=
  ⟨by decide, by decide, (spec_c8_start_round exC8).1,
   (spec_c8_start_round exC8).2.2.1,
   (spec_c8_start_round exC8).2.2.2.2.2 (by decide)⟩

/-- C9: Overflow trashing — when `add_tiles` succeeds on a working row
`row < 5` currently holding `k` tiles (capacity `row + 1`), exactly
`min n (row + 1 - k)` of the `n` incoming tiles are staged in the row and
the remaining `n - min n (row + 1 - k)` tiles of that color are appended
to the trash. -/
theorem spec_c9_overflow_trashing (p : PlayerState) (row : Nat) (c : Color) (n : Nat)
    (hrow : row < 5) (h : (add_tiles p row c n).2 = none) :
    (add_tiles p row c n).1.working_count
      = p.working_count.set row (p.working_count.getD row 0
          + min n (row + 1 - p.working_count.getD row 0))
    ∧ (add_tiles p row c n).1.trashed_tiles
      = p.trashed_tiles
        ++ List.replicate (n - min n (row + 1 - p.working_count.getD row 0)) c := by
  rcases add_tiles_ok_cases p row c n h with ⟨h5, _⟩ | ⟨_, _, _, _, _, heq⟩
  · omega
  · rw [heq]
    exact ⟨rfl, rfl⟩

theorem spec_c9_overflow_trashing_witness :
    (add_tiles (PlayerState.new "d") 0 Color.Blue 2).1.working_count = [1, 0, 0, 0, 0]
    ∧ (add_tiles (PlayerState.new "d") 0 Color.Blue 2).1.trashed_tiles = [Color.Blue] :=
  spec_c9_overflow_trashing (PlayerState.new "d") 0 Color.Blue 2 (by decide) (by decide)

theorem check_validity_none_of (f : Nat) (c : Color) (row : Nat)
    (hc : c.is_movable = true) (hrow : row ≤ 5) :
    (Move.mk f c row).check_validity = none := by
  unfold Move.check_validity
  rw [if_neg (by simp [hc]), if_neg (by simp; omega)]

theorem any_filter_pos {α : Type} (l : List α) (p : α → Bool) (h : l.any p = true) :
    0 < (l.filter p).length := by
  rw [List.any_eq_true] at h
  obtain ⟨a, ha, hpa⟩ := h
  have : a ∈ l.filter p := List.mem_filter.mpr ⟨ha, hpa⟩
  exact List.length_pos.mpr (fun hnil => by rw [hnil] at this; cases this)

theorem mem_rowsToMoves (fidx : Nat) (c : Color) (rows : List Nat) (m : Move)
    (h : m ∈ rowsToMoves fidx c rows) :
    m.factory_idx = fidx ∧ m.color = c ∧ m.working_row ∈ rows := by
  unfold rowsToMoves at h
  rw [List.mem_map] at h
  obtain ⟨r, hr, hm⟩ := h
  subst hm
  exact ⟨rfl, rfl, hr⟩

theorem valid_row_add_ok (p : PlayerState) (c : Color) (row n : Nat)
    (hc : c ≠ Color.Start) (hr : row ∈ p.valid_moves c) :
    (add_tiles p row c n).2 = none := by
  unfold PlayerState.valid_moves at hr
  rcases List.mem_cons.mp hr with h5 | hmem
  · subst h5
    rw [add_tiles_trash_row]
  · rw [List.mem_filter] at hmem
    obtain ⟨hrange, hcond⟩ := hmem
    rw [List.mem_range] at hrange
    simp only [Bool.and_eq_true, Bool.or_eq_true, beq_iff_eq, Bool.not_eq_true',
      decide_eq_true_eq] at hcond
    exact add_tiles_ok_of_valid p row c n hrange hcond.1.2 hcond.2
      (by tauto) hc

theorem mem_factoryColorMoves (cm : List (List Nat)) (fidx : Nat) (factory : List Color)
    (m : Move) (h : m ∈ factoryColorMoves cm fidx factory) :
    ∃ cidx, cidx < 5
      ∧ factory.any (fun t => t == ALL_COLORS.getD cidx Color.Blank) = true
      ∧ m.factory_idx = fidx
      ∧ m.color = ALL_COLORS.getD cidx Color.Blank
      ∧ m.working_row ∈ cm.getD cidx [] := by
  unfold factoryColorMoves at h
  rw [mem_foldr_append] at h
  obtain ⟨cidx, hcidx, hm⟩ := h
  rw [List.mem_range] at hcidx
  by_cases ha : factory.any (fun t => t == ALL_COLORS.getD cidx Color.Blank) = true
  · rw [if_pos ha] at hm
    obtain ⟨h1, h2, h3⟩ := mem_rowsToMoves _ _ _ _ hm
    exact ⟨cidx, hcidx, ha, h1, h2, h3⟩
  · rw [if_neg ha] at hm
    cases hm

theorem mem_center_moves (s : GameState) (cm : List (List Nat)) (m : Move)
    (h : m ∈ COLOR_LIST.foldr (fun c acc =>
        (if c = Color.Start then []
         else if (s.center c).isSome then rowsToMoves 0 c (cm.getD (colorIdx c) [])
         else []) ++ acc) []) :
    ∃ c, c ≠ Color.Start ∧ (s.center c).isSome = true
      ∧ m.factory_idx = 0 ∧ m.color = c ∧ m.working_row ∈ cm.getD (colorIdx c) [] := by
  rw [mem_foldr_append] at h
  obtain ⟨c, _, hm⟩ := h
  by_cases h1 : c = Color.Start
  · rw [if_pos h1] at hm; cases hm
  · rw [if_neg h1] at hm
    by_cases h2 : (s.center c).isSome = true
    · rw [if_pos h2] at hm
      obtain ⟨ha, hb, hc⟩ := mem_rowsToMoves _ _ _ _ hm
      exact ⟨c, h1, h2, ha, hb, hc⟩
    · rw [if_neg h2] at hm; cases hm

theorem turnMid_center_of_center (s : GameState) (m : Move) (n : Nat)
    (hc : m.is_from_center = true) :
    (turnMid s m n).center = centerRemove s.center m.color := by
  unfold turnMid commit_source
  rw [if_pos hc]

theorem color_list_movable (c : Color) (h1 : c ≠ Color.Start) (h2 : c ≠ Color.Blank) :
    c.is_movable = true := by
  cases c <;> first | rfl | exact absurd rfl h1 | exact absurd rfl h2

theorem all_colors_getD_movable (cidx : Nat) (h : cidx < 5) :
    (ALL_COLORS.getD cidx Color.Blank).is_movable = true := by
  interval_cases cidx <;> rfl

theorem cm_getD_idx (p : PlayerState) (cidx : Nat) (h : cidx < 5) :
    (ALL_COLORS.map p.valid_moves).getD cidx []
      = p.valid_moves (ALL_COLORS.getD cidx Color.Blank) := by
  interval_cases cidx <;> rfl

theorem cm_getD_colorIdx (p : PlayerState) (c : Color) (hc : c.is_movable = true) :
    (ALL_COLORS.map p.valid_moves).getD (colorIdx c) [] = p.valid_moves c := by
  cases c <;> first | rfl | simp [Color.is_movable] at hc

theorem valid_moves_row_le (p : PlayerState) (c : Color) (row : Nat)
    (h : row ∈ p.valid_moves c) : row ≤ 5 := by
  unfold PlayerState.valid_moves at h
  rcases List.mem_cons.mp h with h5 | hmem
  · omega
  · have := (List.mem_filter.mp hmem).1
    rw [List.mem_range] at this
    omega

theorem getD_default_irrel {α : Type} (l : List α) (i : Nat) (d1 d2 : α)
    (h : i < l.length) : l.getD i d1 = l.getD i d2 := by
  rw [List.getD_eq_getElem l d1 h, List.getD_eq_getElem l d2 h]

/-- C10: Soundness of move generation — in every reachable state where
`valid_moves` returns a move list, each returned move passes
`check_validity` and is accepted by `take_turn`, which returns `Ok`
rather than an error or a panic. -/
theorem spec_c10_valid_moves_sound (s : GameState) (ms : List Move) (m : Move)
    (hreach : Reachable s) (hvm : GameState.valid_moves s = .ok ms) (hm : m ∈ ms) :
    m.check_validity = none ∧ ∃ s2 b, take_turn s m = (s2, .ok b) := by
  obtain ⟨hwf, -⟩ := reachable_inv s hreach
  unfold GameState.valid_moves at hvm
  by_cases hcur : s.curr_player_idx < s.players.length
  case neg => rw [if_neg hcur] at hvm; cases hvm
  rw [if_pos hcur] at hvm
  rw [if_neg (by rw [hwf.center_blank]; simp)] at hvm
  simp only [] at hvm
  have hms := RustResult.ok.inj hvm
  rw [← hms, List.mem_append] at hm
  rcases hm with hmf | hmc
  · rw [mem_foldr_append] at hmf
    obtain ⟨fa, hfa, hmf⟩ := hmf
    obtain ⟨j, f⟩ := fa
    obtain ⟨cidx, hcidx, hany, hfidx, hcolor, hrow⟩ := mem_factoryColorMoves _ _ _ _ hmf
    obtain ⟨-, hjlen, hgetD⟩ := mem_withIdxGo s.factories 0 j f hfa
    simp only [Nat.sub_zero] at hjlen hgetD
    simp only [] at hfidx hcolor hrow
    have hmov : m.color.is_movable = true := hcolor ▸ all_colors_getD_movable cidx hcidx
    have hcst : m.color ≠ Color.Start := movable_ne_start m.color hmov
    rw [cm_getD_idx _ cidx hcidx, ← hcolor] at hrow
    have hrle : m.working_row ≤ 5 := valid_moves_row_le _ _ _ hrow
    have hvd : m.check_validity = none :=
      check_validity_none_of m.factory_idx m.color m.working_row hmov hrle
    have hnc : m.is_from_center = false := by
      unfold Move.is_from_center
      rw [hfidx]
      simp
    have hflt : m.factory_idx - 1 < s.factories.length := by
      rw [hfidx]
      simpa using hjlen
    have hfeq : s.factories.getD (m.factory_idx - 1) [] = f := by
      rw [hfidx]
      simp only [Nat.add_sub_cancel]
      rw [getD_default_irrel s.factories j [] f hjlen]
      exact hgetD
    have hnum : num_tiles_taken s m
        = .ok (((s.factories.getD (m.factory_idx - 1) []).filter
            (fun t => t == m.color)).length) := by
      unfold num_tiles_taken
      rw [if_neg (by simp [hnc]), if_pos hflt]
    have hn : ((s.factories.getD (m.factory_idx - 1) []).filter
        (fun t => t == m.color)).length ≠ 0 := by
      rw [hfeq]
      have := any_filter_pos f (fun t => t == m.color) (by rw [hcolor]; exact hany)
      omega
    have hadd : (add_tiles (s.players.getD s.curr_player_idx (PlayerState.new ""))
        m.working_row m.color
        (((s.factories.getD (m.factory_idx - 1) []).filter
          (fun t => t == m.color)).length)).2 = none :=
      valid_row_add_ok _ _ _ _ hcst hrow
    have htok : (m.is_from_center && is_start_token_available s) = true
        → (turnMid s m (((s.factories.getD (m.factory_idx - 1) []).filter
            (fun t => t == m.color)).length)).center Color.Start = some 1 := by
      intro ht
      rw [hnc] at ht
      cases ht
    exact ⟨hvd, take_turn_ok_of_valid s m _ hvd hnum hn hcur hadd htok⟩
  · obtain ⟨c, hcst, hsome, hfidx, hcolor, hrow⟩ := mem_center_moves s _ m hmc
    have hcbl : c ≠ Color.Blank := by
      intro hbl
      rw [hbl, hwf.center_blank] at hsome
      cases hsome
    have hmovc : c.is_movable = true := color_list_movable c hcst hcbl
    obtain ⟨k, hk⟩ := Option.isSome_iff_exists.mp hsome
    have hpos : 1 ≤ k := hwf.center_pos c k hk
    rw [cm_getD_colorIdx _ c hmovc] at hrow
    rw [← hcolor] at hrow hmovc hcst hk
    have hrle : m.working_row ≤ 5 := valid_moves_row_le _ _ _ hrow
    have hvd : m.check_validity = none :=
      check_validity_none_of m.factory_idx m.color m.working_row hmovc hrle
    have hnc : m.is_from_center = true := by
      unfold Move.is_from_center
      rw [hfidx]
      rfl
    have hnum : num_tiles_taken s m = .ok k := by
      unfold num_tiles_taken
      rw [if_pos hnc, hk]
    have hadd : (add_tiles (s.players.getD s.curr_player_idx (PlayerState.new ""))
        m.working_row m.color k).2 = none :=
      valid_row_add_ok _ _ _ _ hcst hrow
    have htok : (m.is_from_center && is_start_token_available s) = true
        → (turnMid s m k).center Color.Start = some 1 := by
      intro ht
      rw [hnc, Bool.true_and] at ht
      have hst : s.start_player_idx = s.players.length := by
        unfold is_start_token_available at ht
        exact Nat.eq_of_beq_eq_true (by simpa using ht)
      have hcs := hwf.center_start hst
      rw [turnMid_center_of_center s m k hnc]
      unfold centerRemove
      rw [if_neg (fun hsc => hcst hsc.symm), hcs]
    exact ⟨hvd, take_turn_ok_of_valid s m k hvd hnum
      (by omega) hcur hadd htok⟩

def okList : RustResult (List Move) → List Move
  | .ok l => l
  | _ => []

def s10 : GameState := start_round (GameState.new ["a", "b"] (fun _ => 0))

def m10 : Move where
  factory_idx := 1
  color := Color.Blue
  working_row := 5

theorem spec_c10_valid_moves_sound_witness :
    m10.check_validity = none ∧ ∃ s2 b, take_turn s10 m10 = (s2, .ok b) :=
  spec_c10_valid_moves_sound s10 (okList (GameState.valid_moves s10)) m10
    (Reachable.startr (Reachable.init ["a", "b"] (fun _ => 0) (by decide)))
    (by decide) (by decide)
